import Mathlib

/-!
PhotonCounterT0Matching: flash-to-track matching.

A shallow embedding of `lbne::PhotonCounterT0Matching` (file
`T0Finder/PhotonCounterT0Matching_module.cc`): the member variables of the
module become the record `Members`, which is threaded through the loops of
`produce`; `TrackProp` and `DistFromPoint` are pure functions.

Conventions of the embedding.

* A C++ `double` is a rational number and arithmetic on it is exact (no
  rounding, no overflow).  The one operation of the module that has no rational
  value is the quotient by `Length` in `DistFromPoint` when `Length` is 0: it
  is a NaN or an infinity, and the members that receive it (`YZSep`,
  `minYZSep`, `FitParam` and their `Best` copies) have the type `Dbl`, which
  holds these values and compares them as the hardware does.  The functions of
  the C math library that are not rational (`exp`, `pow(., 0.5)`, `hypot`) and
  the drift velocity of the detector service are fields of `Env`.
* `size_t` counters are natural numbers; the casts `(int)iFlash` wrap modulo
  `2^32` (`toInt`).
* An out-of-bounds read of the hit vector is the result `none`.
* The histograms, the tree and the comparison with the Monte-Carlo truth are
  write-only diagnostics and are left out.
-/

namespace PhotonCounterT0Matching

/-! ## Data model -/

/-- The math library and detector services used by the module. -/
structure Env where
  /-- C `exp`. -/
  exp : ℚ → ℚ
  /-- C `pow(x, 0.5)`. -/
  sqrt : ℚ → ℚ
  /-- C `hypot`. -/
  hypot : ℚ → ℚ → ℚ
  /-- Value of `larprop->DriftVelocity()`. -/
  DriftVelocity : ℚ

/-- The parameters read from the configuration in `reconfigure`. -/
structure Config where
  fPredConst : ℚ
  fPredSlope : ℚ
  fDriftTicks : Int

/-- A position, as a `TVector3` or the three entries filled by `Extent`. -/
structure Vec3 where
  x : ℚ
  y : ℚ
  z : ℚ
deriving DecidableEq

/-- A `recob::Track` with its hits: the two ends given by `Extent`, the
trajectory points read by `LocationAtPoint` (their number is
`NumberTrajectoryPoints`), and the peak times of the hits of `fmtht.at(iTrk)`. -/
structure Track where
  extentStart : Vec3
  extentEnd : Vec3
  points : List Vec3
  hits : List ℚ
deriving DecidableEq

/-- A `recob::OpFlash`: the accessors read by the module. -/
structure Flash where
  Time : ℚ
  TotalPE : ℚ
  YCenter : ℚ
  ZCenter : ℚ
deriving DecidableEq

/-- Modelled from the spec: the `anab::T0` record, whose declaration is not part
of the sources; the four fields are the four constructor arguments in the order
of the call in `produce` (time, trigger type, reference id, sequence id). -/
structure T0 where
  time : ℚ
  triggerType : Int
  referenceId : Int
  sequenceId : Nat
deriving DecidableEq

/-- The two output collections of `produce`: the `anab::T0` records and the
track-to-T0 associations (index of the track, index of the record). -/
structure Output where
  T0col : List T0
  Trackassn : List (Nat × Nat)
deriving DecidableEq

/-- A `double` that need not be a finite number: a rational number, `+∞`, or a
NaN. -/
inductive Dbl where
  | fin (x : ℚ)
  | inf
  | nan
deriving DecidableEq

/-- The comparison `a < b` of two `double`s: false as soon as one is a NaN. -/
def Dbl.lt : Dbl → Dbl → Prop
  | Dbl.fin x, Dbl.fin y => x < y
  | Dbl.fin _, Dbl.inf => True
  | Dbl.fin _, Dbl.nan => False
  | Dbl.inf, _ => False
  | Dbl.nan, _ => False

instance (a b : Dbl) : Decidable (Dbl.lt a b) :=
  match a, b with
  | Dbl.fin x, Dbl.fin y => inferInstanceAs (Decidable (x < y))
  | Dbl.fin _, Dbl.inf => isTrue trivial
  | Dbl.fin _, Dbl.nan => isFalse not_false
  | Dbl.inf, _ => isFalse not_false
  | Dbl.nan, _ => isFalse not_false

/-- The comparison `a <= b` of two `double`s: false as soon as one is a NaN. -/
def Dbl.le : Dbl → Dbl → Prop
  | Dbl.fin x, Dbl.fin y => x ≤ y
  | Dbl.fin _, Dbl.inf => True
  | Dbl.inf, Dbl.inf => True
  | Dbl.inf, Dbl.fin _ => False
  | Dbl.fin _, Dbl.nan => False
  | Dbl.inf, Dbl.nan => False
  | Dbl.nan, _ => False

/-- The value of `fabs(a / b)` for two finite numbers: the quotient is a NaN for
`0 / 0` and an infinity for a division of a non-zero number by 0. -/
def Dbl.absDiv (a b : ℚ) : Dbl :=
  if b = 0 then (if a = 0 then Dbl.nan else Dbl.inf) else Dbl.fin |a / b|

/-- The product `d * d`. -/
def Dbl.sq : Dbl → Dbl
  | Dbl.fin x => Dbl.fin (x * x)
  | Dbl.inf => Dbl.inf
  | Dbl.nan => Dbl.nan

/-- The sum `a + d` of a finite number and a `double`. -/
def Dbl.addFin (a : ℚ) : Dbl → Dbl
  | Dbl.fin x => Dbl.fin (a + x)
  | Dbl.inf => Dbl.inf
  | Dbl.nan => Dbl.nan

/-- The power `pow(d, 0.5)`, given its values on the finite numbers. -/
def Dbl.pow05 (sqrt : ℚ → ℚ) : Dbl → Dbl
  | Dbl.fin x => Dbl.fin (sqrt x)
  | Dbl.inf => Dbl.inf
  | Dbl.nan => Dbl.nan

/-- The member variables of the module that the matching reads or writes. -/
structure Members where
  trackStart : Vec3
  trackEnd : Vec3
  TrackLength_X : ℚ
  TrackCentre_X : ℚ
  BestTrackCentre_X : ℚ
  TrackLength_Y : ℚ
  TrackCentre_Y : ℚ
  BestTrackCentre_Y : ℚ
  TrackLength_Z : ℚ
  TrackCentre_Z : ℚ
  BestTrackCentre_Z : ℚ
  trkTimeStart : ℚ
  trkTimeEnd : ℚ
  trkTimeLengh : ℚ
  trkTimeCentre : ℚ
  BesttrkTimeCentre : ℚ
  TrackLength : ℚ
  BestTrackLength : ℚ
  PredictedX : ℚ
  BestPredictedX : ℚ
  TimeSepPredX : ℚ
  BestTimeSepPredX : ℚ
  DeltaPredX : ℚ
  BestDeltaPredX : ℚ
  minYZSep : Dbl
  BestminYZSep : Dbl
  FitParam : Dbl
  BestFitParam : Dbl
  FlashTime : ℚ
  BestFlashTime : ℚ
  TimeSep : ℚ
  BestTimeSep : ℚ
  BestFlash : Int
  YZSep : Dbl
  MCTruthT0 : ℚ

/-- The member `FlashTriggerType`, initialised to 1 and never assigned. -/
def FlashTriggerType : Int := 1

/-- The conversion of a `size_t` to `int`: reduction modulo `2^32` into the
range from `-2^31` to `2^31 - 1`. -/
def toInt (n : Nat) : Int :=
  if n % 2 ^ 32 < 2 ^ 31 then ((n % 2 ^ 32 : Nat) : Int)
  else ((n % 2 ^ 32 : Nat) : Int) - 2 ^ 32

/-! ## The internal functions -/

/-- The values `TrackProp` writes through its reference parameters. -/
structure TrackPropOut where
  TrackLength_X : ℚ
  TrackCentre_X : ℚ
  TrackLength_Y : ℚ
  TrackCentre_Y : ℚ
  TrackLength_Z : ℚ
  TrackCentre_Z : ℚ
  trkTimeLengh : ℚ
  trkTimeCentre : ℚ
  TrackLength : ℚ
deriving DecidableEq

/-- The function `TrackProp`. -/
def TrackProp (env : Env)
    (TrackStart_X TrackEnd_X TrackStart_Y TrackEnd_Y TrackStart_Z TrackEnd_Z : ℚ)
    (trkTimeStart trkTimeEnd : ℚ) : TrackPropOut :=
  let TrackLength_X := |TrackEnd_X - TrackStart_X|
  let TrackCentre_X :=
    if TrackStart_X < TrackEnd_X then TrackStart_X + (1 / 2) * TrackLength_X
    else TrackStart_X - (1 / 2) * TrackLength_X
  let TrackLength_Y := |TrackEnd_Y - TrackStart_Y|
  let TrackCentre_Y :=
    if TrackStart_Y < TrackEnd_Y then TrackStart_Y + (1 / 2) * TrackLength_Y
    else TrackStart_Y - (1 / 2) * TrackLength_Y
  let TrackLength_Z := |TrackEnd_Z - TrackStart_Z|
  let TrackCentre_Z :=
    if TrackStart_Z < TrackEnd_Z then TrackStart_Z + (1 / 2) * TrackLength_Z
    else TrackStart_Z - (1 / 2) * TrackLength_Z
  let trkTimeLengh := trkTimeEnd - trkTimeStart
  let trkTimeCentre := trkTimeStart + (1 / 2) * trkTimeLengh
  let TrackLength :=
    env.sqrt ((TrackEnd_X - TrackStart_X) ^ 2 + (TrackEnd_Y - TrackStart_Y) ^ 2
      + (TrackEnd_Z - TrackStart_Z) ^ 2)
  { TrackLength_X := TrackLength_X, TrackCentre_X := TrackCentre_X,
    TrackLength_Y := TrackLength_Y, TrackCentre_Y := TrackCentre_Y,
    TrackLength_Z := TrackLength_Z, TrackCentre_Z := TrackCentre_Z,
    trkTimeLengh := trkTimeLengh, trkTimeCentre := trkTimeCentre,
    TrackLength := TrackLength }

/-- The function `DistFromPoint`: the quotient by `Length` and its `fabs`. -/
def DistFromPoint (env : Env) (StartY EndY StartZ EndZ PointY PointZ : ℚ) : Dbl :=
  let Length := env.hypot |EndY - StartY| |EndZ - StartZ|
  Dbl.absDiv ((PointZ - StartZ) * (EndY - StartY) - (PointY - StartY) * (EndZ - StartZ))
    Length

/-! ## The loops of `produce` -/

/-- The loop over the trajectory points, entered with `PrevPoint` the point
`Point - 1` and the list holding the points from `Point` on; the state is the
pair of members `(YZSep, minYZSep)`. -/
def pointLoop (env : Env) (flash : Flash) :
    Vec3 → List Vec3 → Nat → Dbl × Dbl → Dbl × Dbl
  | _, [], _, s => s
  | PrevPoint, NewPoint :: rest, Point, s =>
    let YZSep := DistFromPoint env NewPoint.y PrevPoint.y NewPoint.z PrevPoint.z
      flash.YCenter flash.ZCenter
    let minYZSep := if Point = 1 then YZSep else s.2
    let minYZSep := if Dbl.lt YZSep minYZSep then YZSep else minYZSep
    pointLoop env flash NewPoint rest (Point + 1) (YZSep, minYZSep)

/-- The loop `for (Point = 1; Point < NumberTrajectoryPoints(); ++Point)` of one
flash over the trajectory points of the track. -/
def trajectoryLoop (env : Env) (flash : Flash) (points : List Vec3) (s : Dbl × Dbl) :
    Dbl × Dbl :=
  match points with
  | [] => s
  | first :: rest => pointLoop env flash first rest 1 s

/-- Start of the body of the flash loop: the flash-specific members are reset,
then `FlashTime` and `TimeSep` are set. -/
def flashPrep (flash : Flash) (m : Members) : Members :=
  let m := { m with YZSep := Dbl.fin 0, minYZSep := Dbl.fin 0 }
  let m := { m with FlashTime := 0, TimeSep := 0 }
  let m := { m with PredictedX := 0, TimeSepPredX := 0, DeltaPredX := 0,
                    FitParam := Dbl.fin 0 }
  let m := { m with FlashTime := flash.Time }
  { m with TimeSep := m.trkTimeCentre - m.FlashTime }

/-- The quantities worked out for a flash that passed the time window, up to
`FitParam`. -/
def flashScore (env : Env) (cfg : Config) (trk : Track) (flash : Flash) (m : Members) :
    Members :=
  let m := { m with PredictedX := env.exp (cfg.fPredConst + cfg.fPredSlope * flash.TotalPE) }
  let m := { m with TimeSepPredX := m.TimeSep * env.DriftVelocity * (1 / 2) }
  let m := { m with DeltaPredX := |m.TimeSepPredX - m.PredictedX| }
  let s := trajectoryLoop env flash trk.points (m.YZSep, m.minYZSep)
  let m := { m with YZSep := s.1, minYZSep := s.2 }
  { m with FitParam :=
      Dbl.pow05 env.sqrt (Dbl.addFin (m.DeltaPredX * m.DeltaPredX) (Dbl.sq m.minYZSep)) }

/-- The selection of the best flash at the end of the body of the flash loop;
the second component of the state is the local `ValidTrack`. -/
def flashSelect (iFlash : Nat) (s : Members × Bool) : Members × Bool :=
  let m := s.1
  if Dbl.lt m.FitParam m.BestFitParam ∨ toInt iFlash = 0 then
    ({ m with
        BestFlash := toInt iFlash
        BestFitParam := m.FitParam
        BestTrackCentre_X := m.TrackCentre_X
        BestTrackLength := m.TrackLength
        BesttrkTimeCentre := m.trkTimeCentre
        BestTimeSepPredX := m.TimeSepPredX
        BestPredictedX := m.PredictedX
        BestDeltaPredX := m.DeltaPredX
        BestminYZSep := m.minYZSep
        BestFlashTime := m.FlashTime
        BestTimeSep := m.TimeSep }, true)
  else s

/-- The body of the flash loop for the flash at index `iFlash`. -/
def flashBody (env : Env) (cfg : Config) (trk : Track) (iFlash : Nat) (flash : Flash)
    (s : Members × Bool) : Members × Bool :=
  let m := flashPrep flash s.1
  if m.TimeSep < 0 ∨ m.TimeSep > (cfg.fDriftTicks : ℚ) then (m, s.2)
  else flashSelect iFlash (flashScore env cfg trk flash m, s.2)

/-- The loop over the flashes, entered at index `iFlash` with the flashes from
that index on. -/
def flashLoop (env : Env) (cfg : Config) (trk : Track) :
    List Flash → Nat → Members × Bool → Members × Bool
  | [], _, s => s
  | flash :: rest, iFlash, s =>
    flashLoop env cfg trk rest (iFlash + 1) (flashBody env cfg trk iFlash flash s)

/-- The body of the track loop up to the end of the flash loop: the resets, the
reading of the track and of its hits, `TrackProp`, and the loop over all the
flashes.  The hits are read at `nHits - 1` and at `0`; both reads are out of
bounds when there is no hit. -/
def trackScan (env : Env) (cfg : Config) (flashlist : List Flash) (trk : Track)
    (m : Members) : Option (Members × Bool) :=
  let m := { m with BestFlashTime := 0, BestFitParam := Dbl.fin 0, BestTrackCentre_X := 0,
                    BestTrackLength := 0 }
  let m := { m with BestTimeSepPredX := 0, BestPredictedX := 0, BestDeltaPredX := 0,
                    BestminYZSep := Dbl.fin 0, MCTruthT0 := 0 }
  let ValidTrack := false
  let m := { m with trackStart := trk.extentStart, trackEnd := trk.extentEnd }
  let allHits := trk.hits
  let nHits := allHits.length
  match allHits[nHits - 1]?, allHits[0]? with
  | some lastPeak, some firstPeak =>
    let m := { m with trkTimeStart := lastPeak }
    let m := { m with trkTimeEnd := firstPeak }
    let r := TrackProp env m.trackStart.x m.trackEnd.x m.trackStart.y m.trackEnd.y
      m.trackStart.z m.trackEnd.z m.trkTimeStart m.trkTimeEnd
    let m := { m with
      TrackLength_X := r.TrackLength_X, TrackCentre_X := r.TrackCentre_X,
      TrackLength_Y := r.TrackLength_Y, TrackCentre_Y := r.TrackCentre_Y,
      TrackLength_Z := r.TrackLength_Z, TrackCentre_Z := r.TrackCentre_Z,
      trkTimeLengh := r.trkTimeLengh, trkTimeCentre := r.trkTimeCentre,
      TrackLength := r.TrackLength }
    some (flashLoop env cfg trk flashlist 0 (m, ValidTrack))
  | _, _ => none

/-- Modelled from the spec: `util::CreateAssn`, whose definition is not part of
the sources; it associates the track with the record just pushed, the last one
of the collection. -/
def CreateAssn (T0col : List T0) (iTrk : Nat) (Trackassn : List (Nat × Nat)) :
    List (Nat × Nat) :=
  Trackassn ++ [(iTrk, T0col.length - 1)]

/-- The body of the track loop for the track at index `iTrk`. -/
def trackBody (env : Env) (cfg : Config) (flashlist : List Flash) (iTrk : Nat)
    (trk : Track) (m : Members) (out : Output) : Option (Members × Output) :=
  match trackScan env cfg flashlist trk m with
  | none => none
  | some (m, ValidTrack) =>
    if ValidTrack then
      let T0col := out.T0col ++
        [{ time := m.BestFlashTime, triggerType := FlashTriggerType,
           referenceId := m.BestFlash, sequenceId := out.T0col.length }]
      some (m, { T0col := T0col, Trackassn := CreateAssn T0col iTrk out.Trackassn })
    else some (m, out)

/-- The loop over the tracks, entered at index `iTrk` with the tracks from that
index on. -/
def trackLoop (env : Env) (cfg : Config) (flashlist : List Flash) :
    List Track → Nat → Members → Output → Option (Members × Output)
  | [], _, m, out => some (m, out)
  | trk :: rest, iTrk, m, out =>
    match trackBody env cfg flashlist iTrk trk m out with
    | none => none
    | some (m, out) => trackLoop env cfg flashlist rest (iTrk + 1) m out

/-- The function `produce`: the track and flash collections are `none` when
their handle is not valid, in which case the two output collections are put
empty. -/
def produce (env : Env) (cfg : Config) (trackListHandle : Option (List Track))
    (flashListHandle : Option (List Flash)) (m : Members) : Option (Members × Output) :=
  match trackListHandle, flashListHandle with
  | some tracklist, some flashlist =>
    trackLoop env cfg flashlist tracklist 0 m { T0col := [], Trackassn := [] }
  | _, _ => some (m, { T0col := [], Trackassn := [] })

/-! ## Sample inputs

A computable instance of `Env` and a small event, on which the loops are
evaluated. -/

/-- The largest `r` reached from `r` with `(r + 1)^2 ≤ n`, in at most `fuel` steps. -/
def natSqrtFrom (n : Nat) : Nat → Nat → Nat
  | 0, r => r
  | fuel + 1, r => if (r + 1) * (r + 1) ≤ n then natSqrtFrom n fuel (r + 1) else r

/-- The integer square root, rounded down. -/
def natSqrt (n : Nat) : Nat := natSqrtFrom n n 0

/-- A rational square root, exact on the squares of rationals: for `x = p/q` in
lowest terms it is the integer square root of `p*q`, divided by `q`. -/
def ratSqrt (x : ℚ) : ℚ := (natSqrt (x.num.toNat * x.den) : ℚ) / (x.den : ℚ)

/-- A computable math library: `exp` is its Taylor polynomial of degree 3,
`pow(., 0.5)` and `hypot` are computed with `ratSqrt`; the drift velocity is
`1/25`. -/
def sampleEnv : Env :=
  { exp := fun x => 1 + x + x ^ 2 / 2 + x ^ 3 / 6
    sqrt := ratSqrt
    hypot := fun a b => ratSqrt (a * a + b * b)
    DriftVelocity := 1 / 25 }

/-- A configuration with a drift window of 300 ticks. -/
def sampleConfig : Config := { fPredConst := 0, fPredSlope := 0, fDriftTicks := 300 }

/-- The state of the members before the first event: all zero. -/
def zeroMembers : Members :=
  { trackStart := ⟨0, 0, 0⟩, trackEnd := ⟨0, 0, 0⟩,
    TrackLength_X := 0, TrackCentre_X := 0, BestTrackCentre_X := 0,
    TrackLength_Y := 0, TrackCentre_Y := 0, BestTrackCentre_Y := 0,
    TrackLength_Z := 0, TrackCentre_Z := 0, BestTrackCentre_Z := 0,
    trkTimeStart := 0, trkTimeEnd := 0, trkTimeLengh := 0,
    trkTimeCentre := 0, BesttrkTimeCentre := 0,
    TrackLength := 0, BestTrackLength := 0,
    PredictedX := 0, BestPredictedX := 0,
    TimeSepPredX := 0, BestTimeSepPredX := 0,
    DeltaPredX := 0, BestDeltaPredX := 0,
    minYZSep := Dbl.fin 0, BestminYZSep := Dbl.fin 0,
    FitParam := Dbl.fin 0, BestFitParam := Dbl.fin 0,
    FlashTime := 0, BestFlashTime := 0,
    TimeSep := 0, BestTimeSep := 0,
    BestFlash := 0, YZSep := Dbl.fin 0, MCTruthT0 := 0 }

/-- A track along the Z axis with two trajectory points and two hits, of peak
times 600 and 400: its temporal centre is 500. -/
def sampleTrack : Track :=
  { extentStart := ⟨0, 0, 0⟩, extentEnd := ⟨0, 0, 10⟩,
    points := [⟨0, 0, 0⟩, ⟨0, 0, 10⟩], hits := [600, 400] }

/-- A flash at time 250, in the drift window of `sampleTrack`; its score is 5. -/
def flashA : Flash := { Time := 250, TotalPE := 0, YCenter := 3, ZCenter := 5 }

/-- A flash at time 300, in the drift window of `sampleTrack`; its score is 3. -/
def flashB : Flash := { Time := 300, TotalPE := 0, YCenter := 0, ZCenter := 5 }

/-- A track with one trajectory point and one hit, of peak time 500. -/
def onePointTrack : Track :=
  { extentStart := ⟨0, 0, 0⟩, extentEnd := ⟨0, 0, 0⟩, points := [⟨0, 0, 0⟩], hits := [500] }

/-- A track whose hits, of peak time 100, come before every sample flash. -/
def earlyTrack : Track :=
  { extentStart := ⟨0, 0, 0⟩, extentEnd := ⟨0, 0, 10⟩,
    points := [⟨0, 0, 0⟩, ⟨0, 0, 10⟩], hits := [100, 100] }

/-- A track of three trajectory points, along the Z axis and then along the Y
axis, with the hits of `sampleTrack`. -/
def bentTrack : Track :=
  { extentStart := ⟨0, 0, 0⟩, extentEnd := ⟨0, 10, 10⟩,
    points := [⟨0, 0, 0⟩, ⟨0, 0, 10⟩, ⟨0, 10, 10⟩], hits := [600, 400] }

/-- A flash at time 250 whose centre is at distance 3 of the first and at
distance 2 of the second line of `bentTrack`. -/
def flashC : Flash := { Time := 250, TotalPE := 0, YCenter := 3, ZCenter := 8 }

/-- The members with the temporal centre 500 of the sample tracks. -/
def sampleMembers : Members := { zeroMembers with trkTimeCentre := 500 }

/-- A track of three trajectory points whose first two points have the same
`(Y, Z)` and whose last two points are those of `sampleTrack` in `(Y, Z)`, with
the hits of `sampleTrack`. -/
def nanTrack : Track :=
  { extentStart := ⟨0, 0, 0⟩, extentEnd := ⟨5, 0, 10⟩,
    points := [⟨0, 0, 0⟩, ⟨5, 0, 0⟩, ⟨5, 0, 10⟩], hits := [600, 400] }

/-- A track of three trajectory points whose first two points are those of
`sampleTrack` in `(Y, Z)` and whose last two points have the same `(Y, Z)`, with
the hits of `sampleTrack`. -/
def skipTrack : Track :=
  { extentStart := ⟨0, 0, 0⟩, extentEnd := ⟨5, 0, 10⟩,
    points := [⟨0, 0, 0⟩, ⟨0, 0, 10⟩, ⟨5, 0, 10⟩], hits := [600, 400] }

/-- A flash at time 700, after `sampleTrack`: not in its drift window. -/
def flashLate : Flash := { Time := 700, TotalPE := 0, YCenter := 3, ZCenter := 5 }

/-! ## Derived quantities used in the statements -/

/-- The outcome of the flash loop for one track, read off the state at the test
of `ValidTrack`: the index, the time and the score of the best flash. -/
structure MatchResult where
  flash : Int
  time : ℚ
  score : Dbl
deriving DecidableEq

/-- The match of a track after its flash loop: the values of `BestFlash`,
`BestFlashTime` and `BestFitParam` when `ValidTrack` is set, nothing otherwise. -/
def matchOf (s : Members × Bool) : Option MatchResult :=
  if s.2 then some { flash := s.1.BestFlash, time := s.1.BestFlashTime,
                     score := s.1.BestFitParam }
  else none

/-- A flash is admissible for a track with temporal centre `centre` when the
time separation lies in the drift window. -/
def admissible (cfg : Config) (centre : ℚ) (flash : Flash) : Prop :=
  0 ≤ centre - flash.Time ∧ centre - flash.Time ≤ (cfg.fDriftTicks : ℚ)

instance (cfg : Config) (centre : ℚ) (flash : Flash) : Decidable (admissible cfg centre flash) :=
  inferInstanceAs (Decidable (_ ∧ _))

/-- The value `DeltaPredX` of a flash for a track with temporal centre `centre`. -/
def DeltaPredXOf (env : Env) (cfg : Config) (centre : ℚ) (flash : Flash) : ℚ :=
  |(centre - flash.Time) * env.DriftVelocity * (1 / 2)
    - env.exp (cfg.fPredConst + cfg.fPredSlope * flash.TotalPE)|

/-- The value `minYZSep` of a flash for a track: the result of the loop over
the trajectory points entered with the reset value 0. -/
def minYZSepOf (env : Env) (trk : Track) (flash : Flash) : Dbl :=
  (trajectoryLoop env flash trk.points (Dbl.fin 0, Dbl.fin 0)).2

/-- The score `FitParam` of a flash for a track with temporal centre `centre`. -/
def FitParamOf (env : Env) (cfg : Config) (trk : Track) (centre : ℚ) (flash : Flash) :
    Dbl :=
  Dbl.pow05 env.sqrt
    (Dbl.addFin (DeltaPredXOf env cfg centre flash * DeltaPredXOf env cfg centre flash)
      (Dbl.sq (minYZSepOf env trk flash)))

/-- The part of the state the selection reads and writes. -/
structure Sel where
  valid : Bool
  best : Dbl
  flash : Int
  time : ℚ

/-- The selection part of a state of the flash loop. -/
def selOf (s : Members × Bool) : Sel :=
  { valid := s.2, best := s.1.BestFitParam, flash := s.1.BestFlash,
    time := s.1.BestFlashTime }

/-- One step of the flash loop on the selection part of the state. -/
def selStep (env : Env) (cfg : Config) (trk : Track) (centre : ℚ) (iFlash : Nat)
    (flash : Flash) (σ : Sel) : Sel :=
  if admissible cfg centre flash then
    if Dbl.lt (FitParamOf env cfg trk centre flash) σ.best ∨ toInt iFlash = 0 then
      { valid := true, best := FitParamOf env cfg trk centre flash,
        flash := toInt iFlash, time := flash.Time }
    else σ
  else σ

/-- The flash loop on the selection part of the state. -/
def selLoop (env : Env) (cfg : Config) (trk : Track) (centre : ℚ) :
    List Flash → Nat → Sel → Sel
  | [], _, σ => σ
  | flash :: rest, iFlash, σ =>
    selLoop env cfg trk centre rest (iFlash + 1) (selStep env cfg trk centre iFlash flash σ)

/-- The match read off the selection part of the state. -/
def matchSel (σ : Sel) : Option MatchResult :=
  if σ.valid then some { flash := σ.flash, time := σ.time, score := σ.best } else none

/-- The match of a track of temporal centre `centre` as the selection loop
run from the reset state gives it. -/
def selectFlash (env : Env) (cfg : Config) (trk : Track) (centre : ℚ)
    (flashes : List Flash) : Option MatchResult :=
  matchSel (selLoop env cfg trk centre flashes 0
    { valid := false, best := Dbl.fin 0, flash := 0, time := 0 })

/-- The temporal centre `TrackProp` gives a track whose hit list starts with
`first` and ends with `last`. -/
def centreOf (first last : ℚ) : ℚ := last + (1 / 2) * (first - last)

/-- The outcome of the body of the track loop at the test of `ValidTrack`: the
temporal centre of the track and its match; `none` when the hits are read out
of bounds. -/
def trackMatch (env : Env) (cfg : Config) (flashlist : List Flash) (trk : Track)
    (m : Members) : Option (ℚ × Option MatchResult) :=
  (trackScan env cfg flashlist trk m).map (fun s => (s.1.trkTimeCentre, matchOf s))

/-- The match a track obtains when it is processed on its own, from the members
as they are before the first event. -/
def matchAlone (env : Env) (cfg : Config) (flashlist : List Flash) (trk : Track) :
    Option MatchResult :=
  (trackMatch env cfg flashlist trk zeroMembers).bind (fun p => p.2)

/-- The tracks of a list that obtain a match on their own, in the order of the
list, each with its index (counted from `iTrk`) and its match. -/
def matchedFrom (env : Env) (cfg : Config) (flashlist : List Flash) (iTrk : Nat)
    (tracklist : List Track) : List (Nat × MatchResult) :=
  (tracklist.enumFrom iTrk).filterMap
    (fun p => (matchAlone env cfg flashlist p.2).map (fun r => (p.1, r)))

/-- The record expected at position `q.1` for the matched track `q.2`. -/
def recordOf (q : Nat × (Nat × MatchResult)) : T0 :=
  { time := q.2.2.time, triggerType := 1, referenceId := q.2.2.flash, sequenceId := q.1 }

/-- The association expected at position `q.1` for the matched track `q.2`. -/
def assnOf (q : Nat × (Nat × MatchResult)) : Nat × Nat := (q.2.1, q.1)

/-- The members holding the temporal summary of the track. -/
def timesOf (m : Members) : ℚ × ℚ × ℚ × ℚ :=
  (m.trkTimeStart, m.trkTimeEnd, m.trkTimeLengh, m.trkTimeCentre)

/-- The invariant of the flash loop after the flashes `pre`: once a flash is
retained it is an admissible flash of `pre`, and the state holds its index, its
time and its score. -/
def SelInv (env : Env) (cfg : Config) (trk : Track) (centre : ℚ) (pre : List Flash)
    (σ : Sel) : Prop :=
  σ.valid = true → ∃ (w : Nat) (f : Flash), σ.flash = (w : Int) ∧ pre[w]? = some f ∧
    admissible cfg centre f ∧ FitParamOf env cfg trk centre f = σ.best ∧ σ.time = f.Time

/-- The invariant of the flash loop after the flashes `pre` on a track of which
no score is a NaN: the best score is a number and a lower bound of the scores
of the admissible flashes seen, and once a flash is retained every admissible
flash before it has a larger score. -/
def SelMin (env : Env) (cfg : Config) (trk : Track) (centre : ℚ) (pre : List Flash)
    (σ : Sel) : Prop :=
  σ.best ≠ Dbl.nan ∧
  (∀ (j : Nat) (f : Flash), pre[j]? = some f → admissible cfg centre f →
      Dbl.le σ.best (FitParamOf env cfg trk centre f)) ∧
  (σ.valid = true → ∃ (w : Nat) (f : Flash), σ.flash = (w : Int) ∧ pre[w]? = some f ∧
      ∀ (j : Nat) (g : Flash), j < w → pre[j]? = some g → admissible cfg centre g →
        Dbl.lt σ.best (FitParamOf env cfg trk centre g))

/-- Two selection states agree when they hold the same flag and best score, and
the same flash once the flag is set. -/
def Sel.agree (σ τ : Sel) : Prop :=
  σ.valid = τ.valid ∧ σ.best = τ.best ∧ (σ.valid = true → σ.flash = τ.flash ∧ σ.time = τ.time)

/-- The outputs after a track of index `iTrk` whose outcome is `r`: with a
match, one record is pushed and associated with the track. -/
def pushMatch (iTrk : Nat) (r : Option MatchResult) (out : Output) : Output :=
  match r with
  | none => out
  | some r =>
    { T0col := out.T0col ++
        [{ time := r.time, triggerType := 1, referenceId := r.flash,
           sequenceId := out.T0col.length }]
      Trackassn := out.Trackassn ++ [(iTrk, out.T0col.length)] }

/-- The distances `DistFromPoint` of the centre of a flash to the lines through
the consecutive pairs of a list of trajectory points, in the order of the
points. -/
def pairDists (env : Env) (flash : Flash) : List Vec3 → List Dbl
  | PrevPoint :: NewPoint :: rest =>
    DistFromPoint env NewPoint.y PrevPoint.y NewPoint.z PrevPoint.z flash.YCenter flash.ZCenter
      :: pairDists env flash (NewPoint :: rest)
  | _ => []

/-! # Theorems -/

/-! ## The flash loop refines the selection loop -/

theorem admissible_iff_not_skip (cfg : Config) (centre : ℚ) (flash : Flash) :
    admissible cfg centre flash ↔
      ¬ (centre - flash.Time < 0 ∨ centre - flash.Time > (cfg.fDriftTicks : ℚ)) := by
  unfold admissible
  rw [not_or, not_lt, not_lt]

theorem flashBody_centre (env : Env) (cfg : Config) (trk : Track) (i : Nat) (f : Flash)
    (s : Members × Bool) :
    (flashBody env cfg trk i f s).1.trkTimeCentre = s.1.trkTimeCentre := by
  unfold flashBody flashSelect flashScore flashPrep
  dsimp only
  split_ifs <;> rfl

theorem selOf_flashBody (env : Env) (cfg : Config) (trk : Track) (i : Nat) (f : Flash)
    (s : Members × Bool) :
    selOf (flashBody env cfg trk i f s)
      = selStep env cfg trk s.1.trkTimeCentre i f (selOf s) := by
  by_cases h : admissible cfg s.1.trkTimeCentre f
  · have h' := (admissible_iff_not_skip cfg s.1.trkTimeCentre f).1 h
    unfold selStep
    rw [if_pos h]
    unfold flashBody flashSelect flashScore flashPrep FitParamOf DeltaPredXOf minYZSepOf selOf
    dsimp only
    rw [if_neg h']
    split_ifs <;> rfl
  · have h' : s.1.trkTimeCentre - f.Time < 0 ∨ s.1.trkTimeCentre - f.Time > (cfg.fDriftTicks : ℚ) := by
      by_contra hc
      exact h ((admissible_iff_not_skip cfg s.1.trkTimeCentre f).2 hc)
    unfold selStep
    rw [if_neg h]
    unfold flashBody flashPrep selOf
    dsimp only
    rw [if_pos h']

theorem flashLoop_centre (env : Env) (cfg : Config) (trk : Track) (fs : List Flash) :
    ∀ (i : Nat) (s : Members × Bool),
      (flashLoop env cfg trk fs i s).1.trkTimeCentre = s.1.trkTimeCentre := by
  induction fs with
  | nil => intro i s; rfl
  | cons f fs ih =>
    intro i s
    rw [flashLoop, ih, flashBody_centre]

theorem selOf_flashLoop (env : Env) (cfg : Config) (trk : Track) (fs : List Flash) :
    ∀ (i : Nat) (s : Members × Bool),
      selOf (flashLoop env cfg trk fs i s)
        = selLoop env cfg trk s.1.trkTimeCentre fs i (selOf s) := by
  induction fs with
  | nil => intro i s; rfl
  | cons f fs ih =>
    intro i s
    rw [flashLoop, ih, flashBody_centre, selOf_flashBody, selLoop]

theorem flashBody_times (env : Env) (cfg : Config) (trk : Track) (i : Nat) (f : Flash)
    (s : Members × Bool) : timesOf (flashBody env cfg trk i f s).1 = timesOf s.1 := by
  unfold flashBody flashSelect flashScore flashPrep timesOf
  dsimp only
  split_ifs <;> rfl

theorem flashLoop_times (env : Env) (cfg : Config) (trk : Track) (fs : List Flash) :
    ∀ (i : Nat) (s : Members × Bool),
      timesOf (flashLoop env cfg trk fs i s).1 = timesOf s.1 := by
  induction fs with
  | nil => intro i s; rfl
  | cons f fs ih =>
    intro i s
    rw [flashLoop, ih, flashBody_times]

/-! ## The start of the flash loop -/

/-- With a hit, the body of the track loop reaches the flash loop, which it
enters with `ValidTrack` unset, `BestFitParam` reset and the temporal summary of
the track: start at the last hit, end at the first hit. -/
theorem trackScan_of_hits (env : Env) (cfg : Config) (flashes : List Flash) (trk : Track)
    (m : Members) (first last : ℚ) (hfirst : trk.hits.head? = some first)
    (hlast : trk.hits.getLast? = some last) :
    ∃ m0 : Members,
      trackScan env cfg flashes trk m = some (flashLoop env cfg trk flashes 0 (m0, false)) ∧
      m0.BestFitParam = Dbl.fin 0 ∧ m0.BestFlashTime = 0 ∧ m0.BestFlash = m.BestFlash ∧
      timesOf m0 = (last, first, first - last, last + (1 / 2) * (first - last)) := by
  rw [List.head?_eq_getElem?] at hfirst
  rw [List.getLast?_eq_getElem?] at hlast
  unfold trackScan
  simp only [hfirst, hlast]
  exact ⟨_, rfl, rfl, rfl, rfl, rfl⟩

theorem trackScan_no_hits (env : Env) (cfg : Config) (flashes : List Flash) (trk : Track)
    (m : Members) (h : trk.hits = []) : trackScan env cfg flashes trk m = none := by
  unfold trackScan
  simp [h]

theorem hits_ends (hits : List ℚ) (h : hits ≠ []) :
    ∃ first last, hits.head? = some first ∧ hits.getLast? = some last := by
  cases hits with
  | nil => exact absurd rfl h
  | cons a l => exact ⟨a, (a :: l).getLast (by simp), rfl, List.getLast?_eq_getLast _ _⟩

theorem trackScan_some_hits (env : Env) (cfg : Config) (flashes : List Flash) (trk : Track)
    (m : Members) (s : Members × Bool) (h : trackScan env cfg flashes trk m = some s) :
    trk.hits ≠ [] := by
  intro hn
  rw [trackScan_no_hits env cfg flashes trk m hn] at h
  exact Option.noConfusion h

/-! ## The cast of the flash index -/

theorem toInt_of_lt (n : Nat) (h : n < 2 ^ 31) : toInt n = (n : Int) := by
  have h2 : n % 2 ^ 32 = n := Nat.mod_eq_of_lt (by omega)
  unfold toInt
  rw [h2, if_pos h]

theorem toInt_eq_zero_iff (n : Nat) (h : n < 2 ^ 31) : toInt n = 0 ↔ n = 0 := by
  rw [toInt_of_lt n h]
  exact Int.natCast_eq_zero

/-! ## The comparisons of `Dbl` -/

theorem Dbl_lt_irrefl (a : Dbl) : ¬ Dbl.lt a a := by
  cases a <;> simp [Dbl.lt]

theorem Dbl_not_lt_nan (a : Dbl) : ¬ Dbl.lt a Dbl.nan := by
  cases a <;> simp [Dbl.lt]

theorem Dbl_not_nan_le (a : Dbl) : ¬ Dbl.le Dbl.nan a := by
  simp [Dbl.le]

theorem Dbl_le_refl (a : Dbl) (h : a ≠ Dbl.nan) : Dbl.le a a := by
  cases a <;> simp_all [Dbl.le]

theorem Dbl_le_of_lt {a b : Dbl} (h : Dbl.lt a b) : Dbl.le a b := by
  cases a <;> cases b <;> simp_all [Dbl.lt, Dbl.le]
  exact le_of_lt h

theorem Dbl_le_of_not_lt {a b : Dbl} (ha : a ≠ Dbl.nan) (hb : b ≠ Dbl.nan)
    (h : ¬ Dbl.lt a b) : Dbl.le b a := by
  cases a <;> cases b <;> simp_all [Dbl.lt, Dbl.le]

theorem Dbl_lt_of_lt_of_le {a b c : Dbl} (h1 : Dbl.lt a b) (h2 : Dbl.le b c) :
    Dbl.lt a c := by
  cases a <;> cases b <;> cases c <;> simp_all [Dbl.lt, Dbl.le]
  exact lt_of_lt_of_le h1 h2

theorem Dbl_le_trans {a b c : Dbl} (h1 : Dbl.le a b) (h2 : Dbl.le b c) : Dbl.le a c := by
  cases a <;> cases b <;> cases c <;> simp_all [Dbl.lt, Dbl.le]
  exact le_trans h1 h2

/-! ## The invariants of the selection loop -/

theorem getElem?_snoc_cases {α : Type} {pre : List α} {f g : α} {j : Nat}
    (h : (pre ++ [f])[j]? = some g) : pre[j]? = some g ∨ (j = pre.length ∧ g = f) := by
  by_cases hj : j < pre.length
  · left
    rwa [List.getElem?_append_left hj] at h
  · right
    have hlt : j < (pre ++ [f]).length := (List.getElem?_eq_some.1 h).1
    have hlen : j = pre.length := by
      rw [List.length_append, List.length_singleton] at hlt
      omega
    subst hlen
    rw [List.getElem?_concat_length] at h
    exact ⟨rfl, (Option.some.inj h).symm⟩

theorem getElem?_snoc_of_some {α : Type} {pre : List α} (f : α) {g : α} {j : Nat}
    (h : pre[j]? = some g) : (pre ++ [f])[j]? = some g := by
  have hj : j < pre.length := (List.getElem?_eq_some.1 h).1
  rwa [List.getElem?_append_left hj]

theorem SelInv_step (env : Env) (cfg : Config) (trk : Track) (centre : ℚ)
    (pre : List Flash) (f : Flash) (σ : Sel) (hlen : pre.length < 2 ^ 31)
    (inv : SelInv env cfg trk centre pre σ) :
    SelInv env cfg trk centre (pre ++ [f]) (selStep env cfg trk centre pre.length f σ) := by
  have hold : σ.valid = true → ∃ (w : Nat) (g : Flash), σ.flash = (w : Int) ∧
      (pre ++ [f])[w]? = some g ∧ admissible cfg centre g ∧
      FitParamOf env cfg trk centre g = σ.best ∧ σ.time = g.Time := by
    intro hv
    obtain ⟨w, g, hw, hg, hadm, hscore, htime⟩ := inv hv
    exact ⟨w, g, hw, getElem?_snoc_of_some f hg, hadm, hscore, htime⟩
  unfold selStep
  split_ifs with hadm hacc
  · intro _
    exact ⟨pre.length, f, toInt_of_lt _ hlen, List.getElem?_concat_length pre f, hadm, rfl, rfl⟩
  · exact hold
  · exact hold

theorem SelInv_loop (env : Env) (cfg : Config) (trk : Track) (centre : ℚ)
    (fs : List Flash) :
    ∀ (pre : List Flash) (σ : Sel), (pre ++ fs).length ≤ 2 ^ 31 →
      SelInv env cfg trk centre pre σ →
      SelInv env cfg trk centre (pre ++ fs)
        (selLoop env cfg trk centre fs pre.length σ) := by
  induction fs with
  | nil =>
    intro pre σ _ inv
    rw [List.append_nil]
    exact inv
  | cons f fs ih =>
    intro pre σ hlen inv
    have hlen1 : pre.length < 2 ^ 31 := by
      rw [List.length_append, List.length_cons] at hlen
      omega
    have hstep := SelInv_step env cfg trk centre pre f σ hlen1 inv
    have hl : (pre ++ [f]).length = pre.length + 1 := by
      rw [List.length_append, List.length_singleton]
    have happ : pre ++ f :: fs = (pre ++ [f]) ++ fs := by
      rw [List.append_assoc, List.singleton_append]
    rw [selLoop, happ, ← hl]
    exact ih (pre ++ [f]) _ (by rw [← happ]; exact hlen) hstep

theorem SelMin_step (env : Env) (cfg : Config) (trk : Track) (centre : ℚ)
    (pre : List Flash) (f : Flash) (σ : Sel) (hlen : pre.length < 2 ^ 31)
    (hnan : admissible cfg centre f → FitParamOf env cfg trk centre f ≠ Dbl.nan)
    (inv : SelMin env cfg trk centre pre σ) :
    SelMin env cfg trk centre (pre ++ [f]) (selStep env cfg trk centre pre.length f σ) := by
  obtain ⟨hnum, hlow, hbest⟩ := inv
  have hold : σ.valid = true → ∃ (w : Nat) (g : Flash), σ.flash = (w : Int) ∧
      (pre ++ [f])[w]? = some g ∧
      ∀ (j : Nat) (g : Flash), j < w → (pre ++ [f])[j]? = some g → admissible cfg centre g →
        Dbl.lt σ.best (FitParamOf env cfg trk centre g) := by
    intro hv
    obtain ⟨w, fw, hw, hfw, hbefore⟩ := hbest hv
    refine ⟨w, fw, hw, getElem?_snoc_of_some f hfw, ?_⟩
    intro j g hjw hj hg
    have hwlt : w < pre.length := (List.getElem?_eq_some.1 hfw).1
    have hj' : pre[j]? = some g := by
      rwa [List.getElem?_append_left (lt_trans hjw hwlt)] at hj
    exact hbefore j g hjw hj' hg
  unfold selStep
  by_cases hadm : admissible cfg centre f
  · rw [if_pos hadm]
    by_cases hacc : Dbl.lt (FitParamOf env cfg trk centre f) σ.best ∨ toInt pre.length = 0
    · rw [if_pos hacc]
      have hprev : ∀ (j : Nat) (g : Flash), pre[j]? = some g → admissible cfg centre g →
          Dbl.lt (FitParamOf env cfg trk centre f) (FitParamOf env cfg trk centre g) := by
        intro j g hj hg
        rcases hacc with hlt | hzero
        · exact Dbl_lt_of_lt_of_le hlt (hlow j g hj hg)
        · have h0 : pre.length = 0 := (toInt_eq_zero_iff _ hlen).1 hzero
          have hjlt : j < pre.length := (List.getElem?_eq_some.1 hj).1
          omega
      refine ⟨hnan hadm, ?_, ?_⟩
      · intro j g hj hg
        rcases getElem?_snoc_cases hj with hj' | ⟨_, hgf⟩
        · exact Dbl_le_of_lt (hprev j g hj' hg)
        · rw [hgf]
          exact Dbl_le_refl _ (hnan hadm)
      · intro _
        refine ⟨pre.length, f, toInt_of_lt _ hlen, List.getElem?_concat_length pre f, ?_⟩
        intro j g hjw hj hg
        have hj' : pre[j]? = some g := by
          rwa [List.getElem?_append_left hjw] at hj
        exact hprev j g hj' hg
    · rw [if_neg hacc]
      rw [not_or] at hacc
      refine ⟨hnum, ?_, hold⟩
      intro j g hj hg
      rcases getElem?_snoc_cases hj with hj' | ⟨_, hgf⟩
      · exact hlow j g hj' hg
      · rw [hgf]
        exact Dbl_le_of_not_lt (hnan hadm) hnum hacc.1
  · rw [if_neg hadm]
    refine ⟨hnum, ?_, hold⟩
    intro j g hj hg
    rcases getElem?_snoc_cases hj with hj' | ⟨_, hgf⟩
    · exact hlow j g hj' hg
    · rw [hgf] at hg
      exact absurd hg hadm

theorem SelMin_loop (env : Env) (cfg : Config) (trk : Track) (centre : ℚ)
    (fs : List Flash) :
    ∀ (pre : List Flash) (σ : Sel), (pre ++ fs).length ≤ 2 ^ 31 →
      (∀ f ∈ fs, admissible cfg centre f → FitParamOf env cfg trk centre f ≠ Dbl.nan) →
      SelMin env cfg trk centre pre σ →
      SelMin env cfg trk centre (pre ++ fs)
        (selLoop env cfg trk centre fs pre.length σ) := by
  induction fs with
  | nil =>
    intro pre σ _ _ inv
    rw [List.append_nil]
    exact inv
  | cons f fs ih =>
    intro pre σ hlen hnan inv
    have hlen1 : pre.length < 2 ^ 31 := by
      rw [List.length_append, List.length_cons] at hlen
      omega
    have hstep := SelMin_step env cfg trk centre pre f σ hlen1
      (hnan f (List.mem_cons_self f fs)) inv
    have hl : (pre ++ [f]).length = pre.length + 1 := by
      rw [List.length_append, List.length_singleton]
    have happ : pre ++ f :: fs = (pre ++ [f]) ++ fs := by
      rw [List.append_assoc, List.singleton_append]
    rw [selLoop, happ, ← hl]
    exact ih (pre ++ [f]) _ (by rw [← happ]; exact hlen)
      (fun g hg => hnan g (List.mem_cons_of_mem f hg)) hstep

/-- After the selection loop run from the reset state over the whole flash list
the invariant `SelInv` holds. -/
theorem selLoop_inv (env : Env) (cfg : Config) (trk : Track) (centre : ℚ)
    (flashes : List Flash) (hlen : flashes.length ≤ 2 ^ 31) :
    SelInv env cfg trk centre flashes (selLoop env cfg trk centre flashes 0
      { valid := false, best := Dbl.fin 0, flash := 0, time := 0 }) := by
  have := SelInv_loop env cfg trk centre flashes []
    { valid := false, best := Dbl.fin 0, flash := 0, time := 0 }
    (by simpa using hlen) (fun hv => Bool.noConfusion hv)
  simpa using this

/-- After the selection loop run from the reset state over a flash list of
which no admissible flash has a NaN score the invariant `SelMin` holds. -/
theorem selLoop_min (env : Env) (cfg : Config) (trk : Track) (centre : ℚ)
    (flashes : List Flash) (hlen : flashes.length ≤ 2 ^ 31)
    (hnan : ∀ f ∈ flashes, admissible cfg centre f →
      FitParamOf env cfg trk centre f ≠ Dbl.nan) :
    SelMin env cfg trk centre flashes (selLoop env cfg trk centre flashes 0
      { valid := false, best := Dbl.fin 0, flash := 0, time := 0 }) := by
  have := SelMin_loop env cfg trk centre flashes []
    { valid := false, best := Dbl.fin 0, flash := 0, time := 0 }
    (by simpa using hlen) hnan
    ⟨fun h => Dbl.noConfusion h, fun j f hj => by simp at hj, fun hv => Bool.noConfusion hv⟩
  simpa using this

/-! ## The match does not depend on the incoming members -/

theorem matchOf_eq_matchSel (s : Members × Bool) : matchOf s = matchSel (selOf s) := rfl

theorem selStep_agree (env : Env) (cfg : Config) (trk : Track) (centre : ℚ) (i : Nat)
    (f : Flash) (σ τ : Sel) (h : σ.agree τ) :
    (selStep env cfg trk centre i f σ).agree (selStep env cfg trk centre i f τ) := by
  obtain ⟨hv, hb, hr⟩ := h
  unfold selStep
  rw [hb]
  split_ifs
  · exact ⟨rfl, rfl, fun _ => ⟨rfl, rfl⟩⟩
  · exact ⟨hv, hb, hr⟩
  · exact ⟨hv, hb, hr⟩

theorem selLoop_agree (env : Env) (cfg : Config) (trk : Track) (centre : ℚ)
    (fs : List Flash) :
    ∀ (i : Nat) (σ τ : Sel), σ.agree τ →
      (selLoop env cfg trk centre fs i σ).agree (selLoop env cfg trk centre fs i τ) := by
  induction fs with
  | nil => intro i σ τ h; exact h
  | cons f fs ih =>
    intro i σ τ h
    rw [selLoop, selLoop]
    exact ih (i + 1) _ _ (selStep_agree env cfg trk centre i f σ τ h)

theorem matchSel_agree (σ τ : Sel) (h : σ.agree τ) : matchSel σ = matchSel τ := by
  obtain ⟨hv, hb, hr⟩ := h
  unfold matchSel
  cases hσ : σ.valid with
  | false =>
    rw [← hv, hσ]
    rfl
  | true =>
    obtain ⟨hf, ht⟩ := hr hσ
    rw [← hv, hσ, hf, ht, hb]

/-- The match of a track with a hit is the result of the selection loop run
from the reset state, with the temporal centre of the track; the members the
track loop is entered with play no part. -/
theorem trackScan_match (env : Env) (cfg : Config) (flashes : List Flash) (trk : Track)
    (m : Members) (first last : ℚ) (hfirst : trk.hits.head? = some first)
    (hlast : trk.hits.getLast? = some last) :
    ∃ s, trackScan env cfg flashes trk m = some s ∧
      s.1.trkTimeCentre = centreOf first last ∧
      matchOf s = selectFlash env cfg trk (centreOf first last) flashes := by
  obtain ⟨m0, hscan, hbest, htime, _, htimes⟩ :=
    trackScan_of_hits env cfg flashes trk m first last hfirst hlast
  have hc : m0.trkTimeCentre = centreOf first last := congrArg (fun t => t.2.2.2) htimes
  refine ⟨_, hscan, ?_, ?_⟩
  · rw [flashLoop_centre]
    exact hc
  · rw [matchOf_eq_matchSel, selOf_flashLoop]
    change matchSel (selLoop env cfg trk m0.trkTimeCentre flashes 0 (selOf (m0, false))) = _
    rw [hc]
    unfold selectFlash
    apply matchSel_agree
    apply selLoop_agree
    exact ⟨rfl, hbest, fun hv => Bool.noConfusion hv⟩

/-! ## Values on the sample inputs -/

theorem ratSqrt_nonneg (x : ℚ) : 0 ≤ ratSqrt x :=
  div_nonneg (Nat.cast_nonneg _) (Nat.cast_nonneg _)

theorem ratSqrt_25 : ratSqrt 25 = 5 := by
  have h : natSqrt 25 = 5 := by decide
  simp [ratSqrt, h]

theorem ratSqrt_9 : ratSqrt 9 = 3 := by
  have h : natSqrt 9 = 3 := by decide
  simp [ratSqrt, h]

theorem ratSqrt_100 : ratSqrt 100 = 10 := by
  have h : natSqrt 100 = 10 := by decide
  simp [ratSqrt, h]

theorem sample_centre : centreOf 600 400 = 500 := by
  unfold centreOf
  norm_num

theorem ratSqrt_0 : ratSqrt 0 = 0 := by
  have h : natSqrt 0 = 0 := by decide
  simp [ratSqrt, h]

theorem sample_fit_A :
    FitParamOf sampleEnv sampleConfig sampleTrack 500 flashA = Dbl.fin 5 := by
  norm_num [FitParamOf, DeltaPredXOf, minYZSepOf, trajectoryLoop, pointLoop, DistFromPoint,
    Dbl.absDiv, Dbl.lt, Dbl.sq, Dbl.addFin, Dbl.pow05,
    sampleEnv, sampleConfig, sampleTrack, flashA, ratSqrt_100, ratSqrt_25]

theorem sample_fit_B :
    FitParamOf sampleEnv sampleConfig sampleTrack 500 flashB = Dbl.fin 3 := by
  norm_num [FitParamOf, DeltaPredXOf, minYZSepOf, trajectoryLoop, pointLoop, DistFromPoint,
    Dbl.absDiv, Dbl.lt, Dbl.sq, Dbl.addFin, Dbl.pow05,
    sampleEnv, sampleConfig, sampleTrack, flashB, ratSqrt_100, ratSqrt_9]

theorem sample_adm_A : admissible sampleConfig 500 flashA := by
  norm_num [admissible, sampleConfig, flashA]

theorem sample_adm_B : admissible sampleConfig 500 flashB := by
  norm_num [admissible, sampleConfig, flashB]

theorem sample_adm_late : ¬ admissible sampleConfig 500 flashLate := by
  norm_num [admissible, sampleConfig, flashLate]

theorem sample_step_A (i : Nat) (σ : Sel) (h : Dbl.lt (Dbl.fin 5) σ.best ∨ toInt i = 0) :
    selStep sampleEnv sampleConfig sampleTrack 500 i flashA σ
      = { valid := true, best := Dbl.fin 5, flash := toInt i, time := 250 } := by
  unfold selStep
  rw [if_pos sample_adm_A, sample_fit_A, if_pos h]
  rfl

theorem sample_step_B (i : Nat) (σ : Sel) (h : Dbl.lt (Dbl.fin 3) σ.best ∨ toInt i = 0) :
    selStep sampleEnv sampleConfig sampleTrack 500 i flashB σ
      = { valid := true, best := Dbl.fin 3, flash := toInt i, time := 300 } := by
  unfold selStep
  rw [if_pos sample_adm_B, sample_fit_B, if_pos h]
  rfl

theorem sample_step_A_skip (i : Nat) (σ : Sel)
    (h : ¬ (Dbl.lt (Dbl.fin 5) σ.best ∨ toInt i = 0)) :
    selStep sampleEnv sampleConfig sampleTrack 500 i flashA σ = σ := by
  unfold selStep
  rw [if_pos sample_adm_A, sample_fit_A, if_neg h]

theorem sample_step_late (i : Nat) (σ : Sel) :
    selStep sampleEnv sampleConfig sampleTrack 500 i flashLate σ = σ := by
  unfold selStep
  rw [if_neg sample_adm_late]

theorem sample_select_A_late :
    selectFlash sampleEnv sampleConfig sampleTrack 500 [flashA, flashLate]
      = some { flash := 0, time := 250, score := Dbl.fin 5 } := by
  unfold selectFlash
  rw [selLoop, selLoop, selLoop, sample_step_A 0 _ (Or.inr (by decide)), sample_step_late]
  rfl

theorem sample_select_A_B :
    selectFlash sampleEnv sampleConfig sampleTrack 500 [flashA, flashB]
      = some { flash := 1, time := 300, score := Dbl.fin 3 } := by
  unfold selectFlash
  rw [selLoop, selLoop, selLoop, sample_step_A 0 _ (Or.inr (by decide)),
    sample_step_B _ _ (Or.inl (by norm_num [Dbl.lt]))]
  rfl

theorem sample_select_late_A :
    selectFlash sampleEnv sampleConfig sampleTrack 500 [flashLate, flashA] = none := by
  unfold selectFlash
  rw [selLoop, selLoop, selLoop, sample_step_late,
    sample_step_A_skip _ _ (by norm_num [toInt, Dbl.lt])]
  rfl

/-! ## The outcome of a track -/

theorem trackMatch_of_hits (env : Env) (cfg : Config) (flashes : List Flash) (trk : Track)
    (m : Members) (first last : ℚ) (hfirst : trk.hits.head? = some first)
    (hlast : trk.hits.getLast? = some last) :
    trackMatch env cfg flashes trk m
      = some (centreOf first last, selectFlash env cfg trk (centreOf first last) flashes) := by
  obtain ⟨s, hs, hc, hm⟩ := trackScan_match env cfg flashes trk m first last hfirst hlast
  unfold trackMatch
  rw [hs, Option.map_some', hc, hm]

theorem trackMatch_select (env : Env) (cfg : Config) (flashes : List Flash) (trk : Track)
    (m : Members) (c : ℚ) (r : Option MatchResult)
    (h : trackMatch env cfg flashes trk m = some (c, r)) :
    selectFlash env cfg trk c flashes = r := by
  cases hs : trackScan env cfg flashes trk m with
  | none =>
    unfold trackMatch at h
    rw [hs] at h
    exact Option.noConfusion h
  | some s =>
    obtain ⟨first, last, hfirst, hlast⟩ :=
      hits_ends trk.hits (trackScan_some_hits env cfg flashes trk m s hs)
    rw [trackMatch_of_hits env cfg flashes trk m first last hfirst hlast] at h
    have hpair := Option.some.inj h
    have hc : centreOf first last = c := congrArg Prod.fst hpair
    have hr : selectFlash env cfg trk (centreOf first last) flashes = r :=
      congrArg Prod.snd hpair
    rw [← hc]
    exact hr

theorem matchSel_some (σ : Sel) (r : MatchResult) (h : matchSel σ = some r) :
    σ.valid = true ∧ σ.flash = r.flash ∧ σ.time = r.time ∧ σ.best = r.score := by
  unfold matchSel at h
  cases hv : σ.valid with
  | false =>
    rw [hv] at h
    exact Option.noConfusion h
  | true =>
    rw [hv] at h
    have hr := Option.some.inj h
    rw [← hr]
    exact ⟨rfl, rfl, rfl, rfl⟩

theorem sample_hits : sampleTrack.hits.head? = some 600 ∧ sampleTrack.hits.getLast? = some 400 :=
  ⟨rfl, rfl⟩

theorem sample_trackMatch (flashes : List Flash) (m : Members) :
    trackMatch sampleEnv sampleConfig flashes sampleTrack m
      = some (500, selectFlash sampleEnv sampleConfig sampleTrack 500 flashes) := by
  rw [trackMatch_of_hits sampleEnv sampleConfig flashes sampleTrack m 600 400
    sample_hits.1 sample_hits.2, sample_centre]

/-! ## The claims on the selection -/

/-- C1 (as the code runs): with the flash list `[flashLate, flashA]` exactly one flash,
the one at index 1, is admissible for the sample track, and the flash loop
leaves the track without a match. -/
theorem sole_admissible_flash_at_index_one_is_missed :
    ¬ admissible sampleConfig 500 flashLate ∧ admissible sampleConfig 500 flashA ∧
    trackMatch sampleEnv sampleConfig [flashLate, flashA] sampleTrack zeroMembers
      = some (500, none) := by
  refine ⟨sample_adm_late, sample_adm_A, ?_⟩
  rw [sample_trackMatch, sample_select_late_A]

/-- On a track of which no admissible flash has a NaN score: when the track
obtains a match, the flash it names is a flash of the list whose score is at
most the score of every admissible flash, and no admissible flash of the same
score stands earlier in the list (flash lists of at most `2^31` flashes, whose
indices fit in an `int`). -/
theorem best_flash_is_earliest_minimum (env : Env) (cfg : Config) (flashes : List Flash)
    (trk : Track) (m : Members) (c : ℚ) (r : MatchResult)
    (hlen : flashes.length ≤ 2 ^ 31)
    (hnan : ∀ f ∈ flashes, admissible cfg c f → FitParamOf env cfg trk c f ≠ Dbl.nan)
    (h : trackMatch env cfg flashes trk m = some (c, some r)) :
    ∃ (w : Nat) (fw : Flash), r.flash = (w : Int) ∧ flashes[w]? = some fw ∧
      admissible cfg c fw ∧ r.score = FitParamOf env cfg trk c fw ∧
      (∀ (j : Nat) (f : Flash), flashes[j]? = some f → admissible cfg c f →
        Dbl.le r.score (FitParamOf env cfg trk c f)) ∧
      (∀ (j : Nat) (f : Flash), flashes[j]? = some f → admissible cfg c f →
        FitParamOf env cfg trk c f = r.score → w ≤ j) := by
  have hsel := trackMatch_select env cfg flashes trk m c (some r) h
  unfold selectFlash at hsel
  obtain ⟨hv, hflash, _, hscore⟩ := matchSel_some _ r hsel
  obtain ⟨w, fw, hw, hfw, hadm, hfit, _⟩ := selLoop_inv env cfg trk c flashes hlen hv
  obtain ⟨_, hlow, hbest⟩ := selLoop_min env cfg trk c flashes hlen hnan
  obtain ⟨w1, fw1, hw1, _, hbefore⟩ := hbest hv
  have hww : w1 = w := Int.ofNat.inj (hw1.symm.trans hw)
  rw [hww] at hbefore
  rw [hscore] at hlow hfit hbefore
  refine ⟨w, fw, hflash ▸ hw, hfw, hadm, hfit.symm, hlow, ?_⟩
  intro j f hj hf heq
  by_contra hlt
  rw [not_le] at hlt
  have := hbefore j f hlt hj hf
  rw [heq] at this
  exact Dbl_lt_irrefl _ this

/-- An instance of the selection of the earliest minimum: of the two admissible
flashes of scores 5 and 3, in this order, the second is retained. -/
theorem best_flash_is_earliest_minimum_witness :
    ∃ (w : Nat) (fw : Flash), (1 : Int) = (w : Int) ∧ [flashA, flashB][w]? = some fw ∧
      admissible sampleConfig 500 fw ∧
      Dbl.fin 3 = FitParamOf sampleEnv sampleConfig sampleTrack 500 fw ∧
      (∀ (j : Nat) (f : Flash), [flashA, flashB][j]? = some f → admissible sampleConfig 500 f →
        Dbl.le (Dbl.fin 3) (FitParamOf sampleEnv sampleConfig sampleTrack 500 f)) ∧
      (∀ (j : Nat) (f : Flash), [flashA, flashB][j]? = some f → admissible sampleConfig 500 f →
        FitParamOf sampleEnv sampleConfig sampleTrack 500 f = Dbl.fin 3 → w ≤ j) :=
  best_flash_is_earliest_minimum sampleEnv sampleConfig [flashA, flashB] sampleTrack
    zeroMembers 500 { flash := 1, time := 300, score := Dbl.fin 3 } (by simp)
    (by
      intro f hf _
      simp only [List.mem_cons, List.mem_singleton, List.not_mem_nil, or_false] at hf
      rcases hf with hf | hf
      · rw [hf, sample_fit_A]
        exact fun h => Dbl.noConfusion h
      · rw [hf, sample_fit_B]
        exact fun h => Dbl.noConfusion h)
    (by rw [sample_trackMatch, sample_select_A_B])

/-- C3: the flash named by the match of a track is admissible, its time
separation from the temporal centre of the track lies between 0 and
`fDriftTicks`, and no flash outside this window is named (flash lists of at
most `2^31` flashes). -/
theorem matched_flash_is_admissible (env : Env) (cfg : Config) (flashes : List Flash)
    (trk : Track) (m : Members) (c : ℚ) (r : MatchResult)
    (hlen : flashes.length ≤ 2 ^ 31)
    (h : trackMatch env cfg flashes trk m = some (c, some r)) :
    (∃ (w : Nat) (fw : Flash), r.flash = (w : Int) ∧ flashes[w]? = some fw ∧
      r.time = fw.Time ∧ 0 ≤ c - fw.Time ∧ c - fw.Time ≤ (cfg.fDriftTicks : ℚ)) ∧
    (∀ (j : Nat) (f : Flash), flashes[j]? = some f →
      ¬ (0 ≤ c - f.Time ∧ c - f.Time ≤ (cfg.fDriftTicks : ℚ)) → r.flash ≠ (j : Int)) := by
  have hsel := trackMatch_select env cfg flashes trk m c (some r) h
  unfold selectFlash at hsel
  obtain ⟨hv, hflash, htime, _⟩ := matchSel_some _ r hsel
  obtain ⟨w, fw, hw, hfw, hadm, _, ht⟩ := selLoop_inv env cfg trk c flashes hlen hv
  rw [hflash] at hw
  rw [htime] at ht
  refine ⟨⟨w, fw, hw, hfw, ht, hadm.1, hadm.2⟩, ?_⟩
  intro j f hj hout hrj
  rw [hw] at hrj
  have hwj : w = j := Int.ofNat.inj hrj
  rw [hwj, hj] at hfw
  rw [Option.some.inj hfw] at hout
  exact hout hadm

/-- Witness of C3: the sample track with one flash inside and one flash outside
the drift window. -/
theorem matched_flash_is_admissible_witness :
    (∃ (w : Nat) (fw : Flash), (0 : Int) = (w : Int) ∧ [flashA, flashLate][w]? = some fw ∧
      (250 : ℚ) = fw.Time ∧ 0 ≤ 500 - fw.Time ∧
      500 - fw.Time ≤ (sampleConfig.fDriftTicks : ℚ)) ∧
    (∀ (j : Nat) (f : Flash), [flashA, flashLate][j]? = some f →
      ¬ (0 ≤ 500 - f.Time ∧ 500 - f.Time ≤ (sampleConfig.fDriftTicks : ℚ)) →
      (0 : Int) ≠ (j : Int)) :=
  matched_flash_is_admissible sampleEnv sampleConfig [flashA, flashLate] sampleTrack
    zeroMembers 500 { flash := 0, time := 250, score := Dbl.fin 5 } (by simp)
    (by rw [sample_trackMatch, sample_select_A_late])

/-! ## The output of a track -/

theorem trackBody_of_scan (env : Env) (cfg : Config) (flashes : List Flash) (iTrk : Nat)
    (trk : Track) (m : Members) (out : Output) (s : Members × Bool)
    (h : trackScan env cfg flashes trk m = some s) :
    trackBody env cfg flashes iTrk trk m out = some (s.1, pushMatch iTrk (matchOf s) out) := by
  obtain ⟨m1, v⟩ := s
  unfold trackBody
  rw [h]
  cases v with
  | false => rfl
  | true =>
    simp [pushMatch, matchOf, CreateAssn, FlashTriggerType]

theorem trackBody_of_hits (env : Env) (cfg : Config) (flashes : List Flash) (iTrk : Nat)
    (trk : Track) (m : Members) (out : Output) (first last : ℚ)
    (hfirst : trk.hits.head? = some first) (hlast : trk.hits.getLast? = some last) :
    ∃ m1, trackBody env cfg flashes iTrk trk m out
      = some (m1, pushMatch iTrk
          (selectFlash env cfg trk (centreOf first last) flashes) out) := by
  obtain ⟨s, hs, _, hm⟩ := trackScan_match env cfg flashes trk m first last hfirst hlast
  refine ⟨s.1, ?_⟩
  rw [trackBody_of_scan env cfg flashes iTrk trk m out s hs, hm]

theorem selLoop_none_admissible (env : Env) (cfg : Config) (trk : Track) (centre : ℚ)
    (fs : List Flash) (hnone : ∀ f ∈ fs, ¬ admissible cfg centre f) :
    ∀ (i : Nat) (σ : Sel), selLoop env cfg trk centre fs i σ = σ := by
  induction fs with
  | nil => intro i σ; rfl
  | cons f fs ih =>
    intro i σ
    have hf : ¬ admissible cfg centre f := hnone f (List.mem_cons_self f fs)
    rw [selLoop, selStep, if_neg hf]
    exact ih (fun g hg => hnone g (List.mem_cons_of_mem f hg)) (i + 1) σ

theorem selectFlash_none_admissible (env : Env) (cfg : Config) (trk : Track) (centre : ℚ)
    (fs : List Flash) (hnone : ∀ f ∈ fs, ¬ admissible cfg centre f) :
    selectFlash env cfg trk centre fs = none := by
  unfold selectFlash
  rw [selLoop_none_admissible env cfg trk centre fs hnone]
  rfl

/-- C4: a track with a hit, of first peak time `first` and last peak time
`last`, for which the flash list is empty or holds no admissible flash, passes
through the body of the track loop without an out-of-bounds read, obtains no
match, and leaves the two output collections as they were; an event made of
this track alone has empty outputs. -/
theorem no_admissible_flash_no_record (env : Env) (cfg : Config) (flashes : List Flash)
    (iTrk : Nat) (trk : Track) (m : Members) (out : Output) (first last : ℚ)
    (hfirst : trk.hits.head? = some first) (hlast : trk.hits.getLast? = some last)
    (hnone : flashes = [] ∨ ∀ f ∈ flashes, ¬ admissible cfg (centreOf first last) f) :
    trackMatch env cfg flashes trk m = some (centreOf first last, none) ∧
    (∃ m1, trackBody env cfg flashes iTrk trk m out = some (m1, out)) ∧
    (∃ m1, produce env cfg (some [trk]) (some flashes) m
      = some (m1, { T0col := [], Trackassn := [] })) := by
  have hall : ∀ f ∈ flashes, ¬ admissible cfg (centreOf first last) f := by
    rcases hnone with hempty | hall
    · intro f hf
      rw [hempty] at hf
      exact absurd hf (List.not_mem_nil f)
    · exact hall
  have hsel := selectFlash_none_admissible env cfg trk (centreOf first last) flashes hall
  refine ⟨?_, ?_, ?_⟩
  · rw [trackMatch_of_hits env cfg flashes trk m first last hfirst hlast, hsel]
  · obtain ⟨m1, hb⟩ := trackBody_of_hits env cfg flashes iTrk trk m out first last hfirst hlast
    rw [hsel] at hb
    exact ⟨m1, hb⟩
  · obtain ⟨m1, hb⟩ := trackBody_of_hits env cfg flashes 0 trk m
      { T0col := [], Trackassn := [] } first last hfirst hlast
    rw [hsel] at hb
    refine ⟨m1, ?_⟩
    unfold produce
    simp only [trackLoop, hb]
    rfl

/-- Witness of C4: the sample track with the single flash at time 700. -/
theorem no_admissible_flash_no_record_witness :
    trackMatch sampleEnv sampleConfig [flashLate] sampleTrack zeroMembers
      = some (centreOf 600 400, none) ∧
    (∃ m1, trackBody sampleEnv sampleConfig [flashLate] 0 sampleTrack zeroMembers
      { T0col := [], Trackassn := [] } = some (m1, { T0col := [], Trackassn := [] })) ∧
    (∃ m1, produce sampleEnv sampleConfig (some [sampleTrack]) (some [flashLate]) zeroMembers
      = some (m1, { T0col := [], Trackassn := [] })) :=
  no_admissible_flash_no_record sampleEnv sampleConfig [flashLate] 0 sampleTrack zeroMembers
    { T0col := [], Trackassn := [] } 600 400 rfl rfl
    (Or.inr (by
      intro f hf
      rw [List.mem_singleton] at hf
      rw [hf, sample_centre]
      exact sample_adm_late))

/-! ## The output of an event -/

theorem matchOf_scan_eq_matchAlone (env : Env) (cfg : Config) (flashes : List Flash)
    (trk : Track) (m : Members) (s : Members × Bool)
    (h : trackScan env cfg flashes trk m = some s) :
    matchOf s = matchAlone env cfg flashes trk := by
  obtain ⟨first, last, hfirst, hlast⟩ :=
    hits_ends trk.hits (trackScan_some_hits env cfg flashes trk m s h)
  obtain ⟨s1, hs1, _, hm1⟩ := trackScan_match env cfg flashes trk m first last hfirst hlast
  rw [h] at hs1
  rw [Option.some.inj hs1, hm1]
  unfold matchAlone
  rw [trackMatch_of_hits env cfg flashes trk zeroMembers first last hfirst hlast]
  rfl

theorem matchedFrom_cons_none (env : Env) (cfg : Config) (flashes : List Flash) (i : Nat)
    (trk : Track) (ts : List Track) (h : matchAlone env cfg flashes trk = none) :
    matchedFrom env cfg flashes i (trk :: ts) = matchedFrom env cfg flashes (i + 1) ts := by
  unfold matchedFrom
  rw [List.enumFrom_cons, List.filterMap_cons_none]
  simp [h]

theorem matchedFrom_cons_some (env : Env) (cfg : Config) (flashes : List Flash) (i : Nat)
    (trk : Track) (ts : List Track) (r : MatchResult)
    (h : matchAlone env cfg flashes trk = some r) :
    matchedFrom env cfg flashes i (trk :: ts)
      = (i, r) :: matchedFrom env cfg flashes (i + 1) ts := by
  unfold matchedFrom
  rw [List.enumFrom_cons, List.filterMap_cons_some]
  simp [h]

/-- The outputs after the track loop: the records and associations of the
matched tracks are appended in the order of the tracks, the records numbered
from the length of the collection on. -/
theorem trackLoop_output (env : Env) (cfg : Config) (flashes : List Flash)
    (ts : List Track) :
    ∀ (i : Nat) (m : Members) (out : Output) (m1 : Members) (out1 : Output),
      trackLoop env cfg flashes ts i m out = some (m1, out1) →
      out1.T0col = out.T0col ++
        (List.enumFrom out.T0col.length (matchedFrom env cfg flashes i ts)).map recordOf ∧
      out1.Trackassn = out.Trackassn ++
        (List.enumFrom out.T0col.length (matchedFrom env cfg flashes i ts)).map assnOf := by
  induction ts with
  | nil =>
    intro i m out m1 out1 h
    have hout : out = out1 := congrArg Prod.snd (Option.some.inj h)
    rw [← hout]
    simp [matchedFrom]
  | cons trk ts ih =>
    intro i m out m1 out1 h
    rw [trackLoop] at h
    cases hs : trackScan env cfg flashes trk m with
    | none =>
      have hb : trackBody env cfg flashes i trk m out = none := by
        unfold trackBody
        rw [hs]
      rw [hb] at h
      exact Option.noConfusion h
    | some s =>
      rw [trackBody_of_scan env cfg flashes i trk m out s hs] at h
      have hm := matchOf_scan_eq_matchAlone env cfg flashes trk m s hs
      rw [hm] at h
      obtain ⟨h1, h2⟩ := ih (i + 1) s.1 _ m1 out1 h
      cases hr : matchAlone env cfg flashes trk with
      | none =>
        rw [hr] at h1 h2
        rw [matchedFrom_cons_none env cfg flashes i trk ts hr]
        exact ⟨h1, h2⟩
      | some r =>
        rw [hr] at h1 h2
        rw [matchedFrom_cons_some env cfg flashes i trk ts r hr]
        simp only [pushMatch, List.length_append, List.length_singleton] at h1 h2
        rw [h1, h2]
        simp [List.enumFrom_cons, recordOf, assnOf]

theorem trackLoop_of_hits (env : Env) (cfg : Config) (flashes : List Flash)
    (ts : List Track) (hhits : ∀ t ∈ ts, t.hits ≠ []) :
    ∀ (i : Nat) (m : Members) (out : Output),
      ∃ r, trackLoop env cfg flashes ts i m out = some r := by
  induction ts with
  | nil => intro i m out; exact ⟨_, rfl⟩
  | cons trk ts ih =>
    intro i m out
    obtain ⟨first, last, hfirst, hlast⟩ :=
      hits_ends trk.hits (hhits trk (List.mem_cons_self trk ts))
    obtain ⟨m1, hb⟩ := trackBody_of_hits env cfg flashes i trk m out first last hfirst hlast
    rw [trackLoop, hb]
    exact ih (fun t ht => hhits t (List.mem_cons_of_mem trk ht)) _ _ _

/-- The outputs of an event in which every track has a hit. -/
theorem produce_output_of_hits (env : Env) (cfg : Config) (flashes : List Flash)
    (ts : List Track) (m : Members) (hhits : ∀ t ∈ ts, t.hits ≠ []) :
    (produce env cfg (some ts) (some flashes) m).map Prod.snd
      = some { T0col := (List.enum (matchedFrom env cfg flashes 0 ts)).map recordOf
               Trackassn := (List.enum (matchedFrom env cfg flashes 0 ts)).map assnOf } := by
  obtain ⟨⟨m1, out1⟩, hr⟩ :=
    trackLoop_of_hits env cfg flashes ts hhits 0 m { T0col := [], Trackassn := [] }
  obtain ⟨h1, h2⟩ := trackLoop_output env cfg flashes ts 0 m _ m1 out1 hr
  unfold produce
  simp only [hr, Option.map_some']
  simp only [List.nil_append, List.length_nil] at h1 h2
  rw [List.enum]
  rw [← h1, ← h2]

theorem matchAlone_flash (env : Env) (cfg : Config) (flashes : List Flash) (trk : Track)
    (r : MatchResult) (hlen : flashes.length ≤ 2 ^ 31)
    (h : matchAlone env cfg flashes trk = some r) :
    ∃ (w : Nat) (f : Flash), r.flash = (w : Int) ∧ flashes[w]? = some f ∧ r.time = f.Time := by
  unfold matchAlone at h
  cases ht : trackMatch env cfg flashes trk zeroMembers with
  | none =>
    rw [ht] at h
    exact Option.noConfusion h
  | some p =>
    obtain ⟨c, q⟩ := p
    rw [ht] at h
    have hq : q = some r := h
    rw [hq] at ht
    have hsel := trackMatch_select env cfg flashes trk zeroMembers c (some r) ht
    unfold selectFlash at hsel
    obtain ⟨hv, hflash, htime, _⟩ := matchSel_some _ r hsel
    obtain ⟨w, fw, hw, hfw, _, _, hti⟩ := selLoop_inv env cfg trk c flashes hlen hv
    exact ⟨w, fw, hflash ▸ hw, hfw, htime ▸ hti⟩

theorem mem_matchedFrom (env : Env) (cfg : Config) (flashes : List Flash) (i : Nat)
    (ts : List Track) (q : Nat × MatchResult) (hq : q ∈ matchedFrom env cfg flashes i ts) :
    ∃ trk ∈ ts, matchAlone env cfg flashes trk = some q.2 := by
  unfold matchedFrom at hq
  rw [List.mem_filterMap] at hq
  obtain ⟨p, hp, hmap⟩ := hq
  rw [Option.map_eq_some'] at hmap
  obtain ⟨r, hr, hqr⟩ := hmap
  refine ⟨p.2, ?_, ?_⟩
  · have : p.2 ∈ (ts.enumFrom i).map Prod.snd := List.mem_map_of_mem Prod.snd hp
    rwa [List.enumFrom_map_snd] at this
  · rw [hr, ← hqr]

/-! ## Values on the sample events -/

theorem ratSqrt_16 : ratSqrt 16 = 4 := by
  have h : natSqrt 16 = 4 := by decide
  simp [ratSqrt, h]

theorem sample_matchAlone (flashes : List Flash) :
    matchAlone sampleEnv sampleConfig flashes sampleTrack
      = selectFlash sampleEnv sampleConfig sampleTrack 500 flashes := by
  unfold matchAlone
  rw [sample_trackMatch]
  rfl

theorem early_matchAlone :
    matchAlone sampleEnv sampleConfig [flashA, flashB] earlyTrack = none := by
  unfold matchAlone
  rw [trackMatch_of_hits sampleEnv sampleConfig [flashA, flashB] earlyTrack zeroMembers
    100 100 rfl rfl]
  refine selectFlash_none_admissible _ _ _ _ _ ?_
  intro f hf
  simp only [List.mem_cons, List.mem_singleton, List.not_mem_nil, or_false] at hf
  rcases hf with hf | hf <;> rw [hf] <;>
    norm_num [admissible, centreOf, sampleConfig, flashA, flashB]

theorem onePoint_trackMatch :
    trackMatch sampleEnv sampleConfig [flashA] onePointTrack zeroMembers
      = some (500, some { flash := 0, time := 250, score := Dbl.fin 4 }) := by
  have hc : centreOf 500 500 = 500 := by
    unfold centreOf
    norm_num
  have hfit : FitParamOf sampleEnv sampleConfig onePointTrack 500 flashA = Dbl.fin 4 := by
    norm_num [FitParamOf, DeltaPredXOf, minYZSepOf, trajectoryLoop, pointLoop, sampleEnv,
      Dbl.sq, Dbl.addFin, Dbl.pow05, sampleConfig, onePointTrack, flashA, ratSqrt_16]
  rw [trackMatch_of_hits sampleEnv sampleConfig [flashA] onePointTrack zeroMembers
    500 500 rfl rfl, hc]
  unfold selectFlash
  rw [selLoop, selLoop, selStep, if_pos sample_adm_A, hfit, if_pos (Or.inr (by decide))]
  rfl

theorem onePoint_matchAlone :
    matchAlone sampleEnv sampleConfig [flashA] onePointTrack
      = some { flash := 0, time := 250, score := Dbl.fin 4 } := by
  unfold matchAlone
  rw [onePoint_trackMatch]
  rfl

theorem sample_select_A :
    selectFlash sampleEnv sampleConfig sampleTrack 500 [flashA]
      = some { flash := 0, time := 250, score := Dbl.fin 5 } := by
  unfold selectFlash
  rw [selLoop, selLoop, sample_step_A 0 _ (Or.inr (by decide))]
  rfl

theorem sample_event_output (m : Members) :
    (produce sampleEnv sampleConfig (some [sampleTrack, earlyTrack, sampleTrack])
        (some [flashA, flashB]) m).map Prod.snd
      = some { T0col := [{ time := 300, triggerType := 1, referenceId := 1, sequenceId := 0 },
                         { time := 300, triggerType := 1, referenceId := 1, sequenceId := 1 }]
               Trackassn := [(0, 0), (2, 1)] } := by
  rw [produce_output_of_hits sampleEnv sampleConfig [flashA, flashB]
    [sampleTrack, earlyTrack, sampleTrack] m (by
      intro t ht
      simp only [List.mem_cons, List.mem_singleton, List.not_mem_nil, or_false] at ht
      rcases ht with ht | ht | ht <;> rw [ht] <;> simp [sampleTrack, earlyTrack])]
  have hs := sample_matchAlone [flashA, flashB]
  rw [sample_select_A_B] at hs
  rw [matchedFrom_cons_some _ _ _ _ _ _ _ hs, matchedFrom_cons_none _ _ _ _ _ _ early_matchAlone,
    matchedFrom_cons_some _ _ _ _ _ _ _ hs]
  rfl

theorem onePoint_event_output (m : Members) :
    (produce sampleEnv sampleConfig (some [onePointTrack, sampleTrack])
        (some [flashA]) m).map Prod.snd
      = some { T0col := [{ time := 250, triggerType := 1, referenceId := 0, sequenceId := 0 },
                         { time := 250, triggerType := 1, referenceId := 0, sequenceId := 1 }]
               Trackassn := [(0, 0), (1, 1)] } := by
  rw [produce_output_of_hits sampleEnv sampleConfig [flashA]
    [onePointTrack, sampleTrack] m (by
      intro t ht
      simp only [List.mem_cons, List.mem_singleton, List.not_mem_nil, or_false] at ht
      rcases ht with ht | ht <;> rw [ht] <;> simp [sampleTrack, onePointTrack])]
  have hs := sample_matchAlone [flashA]
  rw [sample_select_A] at hs
  rw [matchedFrom_cons_some _ _ _ _ _ _ _ onePoint_matchAlone,
    matchedFrom_cons_some _ _ _ _ _ _ _ hs]
  rfl

/-! ## The claims on tracks and events -/

theorem trajectoryLoop_short (env : Env) (flash : Flash) (points : List Vec3) (s : Dbl × Dbl)
    (hshort : points.length < 2) : trajectoryLoop env flash points s = s := by
  cases points with
  | nil => rfl
  | cons p rest =>
    cases rest with
    | nil => rfl
    | cons q rest =>
      simp only [List.length_cons] at hshort
      omega

/-- C5 (as the code runs): the event made of `onePointTrack`, which has one
trajectory point, and of `sampleTrack`, with the flash `flashA`, is processed
without an error; the track with one trajectory point obtains a match, of score
4 with a transverse distance of zero, and the first output record. -/
theorem one_point_track_is_matched :
    onePointTrack.points.length = 1 ∧
    minYZSepOf sampleEnv onePointTrack flashA = Dbl.fin 0 ∧
    trackMatch sampleEnv sampleConfig [flashA] onePointTrack zeroMembers
      = some (500, some { flash := 0, time := 250, score := Dbl.fin 4 }) ∧
    (produce sampleEnv sampleConfig (some [onePointTrack, sampleTrack])
        (some [flashA]) zeroMembers).map Prod.snd
      = some { T0col := [{ time := 250, triggerType := 1, referenceId := 0, sequenceId := 0 },
                         { time := 250, triggerType := 1, referenceId := 0, sequenceId := 1 }]
               Trackassn := [(0, 0), (1, 1)] } :=
  ⟨rfl, rfl, onePoint_trackMatch, onePoint_event_output zeroMembers⟩

/-- C5 (amended): for a track with a hit and fewer than two trajectory points
no error is raised: the loop over the trajectory points is not entered, every
flash that passes the time window is scored with `minYZSep = 0`, that is
`FitParam = sqrt(DeltaPredX^2 + 0)`, the body of the track loop ends normally,
and the loop goes on with the remaining tracks. -/
theorem short_track_scored_with_zero_separation (env : Env) (cfg : Config)
    (flashes : List Flash) (iTrk : Nat) (trk : Track) (m : Members) (out : Output)
    (hhits : trk.hits ≠ []) (hshort : trk.points.length < 2) :
    (∀ (f : Flash) (m0 : Members),
      (flashScore env cfg trk f (flashPrep f m0)).minYZSep = Dbl.fin 0 ∧
      (flashScore env cfg trk f (flashPrep f m0)).FitParam
        = Dbl.fin (env.sqrt ((flashScore env cfg trk f (flashPrep f m0)).DeltaPredX
            * (flashScore env cfg trk f (flashPrep f m0)).DeltaPredX + 0 * 0))) ∧
    (∃ (m1 : Members) (out1 : Output),
      trackBody env cfg flashes iTrk trk m out = some (m1, out1) ∧
      ∀ rest : List Track,
        trackLoop env cfg flashes (trk :: rest) iTrk m out
          = trackLoop env cfg flashes rest (iTrk + 1) m1 out1) := by
  refine ⟨?_, ?_⟩
  · intro f m0
    have ht := trajectoryLoop_short env f trk.points (Dbl.fin 0, Dbl.fin 0) hshort
    unfold flashScore flashPrep
    dsimp only
    rw [ht]
    exact ⟨rfl, rfl⟩
  · obtain ⟨first, last, hfirst, hlast⟩ := hits_ends trk.hits hhits
    obtain ⟨m1, hb⟩ := trackBody_of_hits env cfg flashes iTrk trk m out first last hfirst hlast
    refine ⟨m1, _, hb, ?_⟩
    intro rest
    rw [trackLoop, hb]

/-- Witness of C5 (amended): the track with one trajectory point. -/
theorem short_track_scored_with_zero_separation_witness :
    (∀ (f : Flash) (m0 : Members),
      (flashScore sampleEnv sampleConfig onePointTrack f (flashPrep f m0)).minYZSep
        = Dbl.fin 0 ∧
      (flashScore sampleEnv sampleConfig onePointTrack f (flashPrep f m0)).FitParam
        = Dbl.fin (sampleEnv.sqrt
            ((flashScore sampleEnv sampleConfig onePointTrack f (flashPrep f m0)).DeltaPredX
            * (flashScore sampleEnv sampleConfig onePointTrack f (flashPrep f m0)).DeltaPredX
            + 0 * 0))) ∧
    (∃ (m1 : Members) (out1 : Output),
      trackBody sampleEnv sampleConfig [flashA] 0 onePointTrack zeroMembers
        { T0col := [], Trackassn := [] } = some (m1, out1) ∧
      ∀ rest : List Track,
        trackLoop sampleEnv sampleConfig [flashA] (onePointTrack :: rest) 0 zeroMembers
            { T0col := [], Trackassn := [] }
          = trackLoop sampleEnv sampleConfig [flashA] rest (0 + 1) m1 out1) :=
  short_track_scored_with_zero_separation sampleEnv sampleConfig [flashA] 0 onePointTrack
    zeroMembers { T0col := [], Trackassn := [] } (by simp [onePointTrack]) (by decide)

/-- C6: on valid handles and tracks that all have a hit, `produce` ends normally and
its records are those of the tracks that obtain a match, one for each in the
order of the tracks; the record at position `k` has the sequence id `k`, the
time and the index of the winning flash and the trigger type 1; the association
at position `k` pairs the index of the matched track with `k`; the time of a
record is the time of the flash it names (flash lists of at most `2^31`
flashes). -/
theorem output_records_of_matched_tracks (env : Env) (cfg : Config) (flashes : List Flash)
    (tracks : List Track) (m : Members)
    (hhits : ∀ t ∈ tracks, t.hits ≠ []) (hlen : flashes.length ≤ 2 ^ 31) :
    ∃ (m1 : Members) (out : Output),
      produce env cfg (some tracks) (some flashes) m = some (m1, out) ∧
      out.T0col = (List.enum (matchedFrom env cfg flashes 0 tracks)).map
        (fun q => { time := q.2.2.time, triggerType := 1, referenceId := q.2.2.flash,
                    sequenceId := q.1 }) ∧
      out.Trackassn = (List.enum (matchedFrom env cfg flashes 0 tracks)).map
        (fun q => (q.2.1, q.1)) ∧
      (∀ q ∈ matchedFrom env cfg flashes 0 tracks, ∃ (w : Nat) (f : Flash),
        q.2.flash = (w : Int) ∧ flashes[w]? = some f ∧ q.2.time = f.Time) := by
  obtain ⟨⟨m1, out1⟩, hr⟩ :=
    trackLoop_of_hits env cfg flashes tracks hhits 0 m { T0col := [], Trackassn := [] }
  obtain ⟨h1, h2⟩ := trackLoop_output env cfg flashes tracks 0 m _ m1 out1 hr
  simp only [List.nil_append, List.length_nil] at h1 h2
  refine ⟨m1, out1, hr, ?_, ?_, ?_⟩
  · rw [h1]
    rfl
  · rw [h2]
    rfl
  · intro q hq
    obtain ⟨trk, _, hm⟩ := mem_matchedFrom env cfg flashes 0 tracks q hq
    exact matchAlone_flash env cfg flashes trk q.2 hlen hm

/-- Witness of C6: an event of three tracks of which the second obtains no
match; the two records are numbered 0 and 1 and belong to the tracks 0 and 2. -/
theorem output_records_of_matched_tracks_witness :
    (∃ (m1 : Members) (out : Output),
      produce sampleEnv sampleConfig (some [sampleTrack, earlyTrack, sampleTrack])
        (some [flashA, flashB]) zeroMembers = some (m1, out) ∧
      out.T0col = (List.enum (matchedFrom sampleEnv sampleConfig [flashA, flashB] 0
          [sampleTrack, earlyTrack, sampleTrack])).map
        (fun q => { time := q.2.2.time, triggerType := 1, referenceId := q.2.2.flash,
                    sequenceId := q.1 }) ∧
      out.Trackassn = (List.enum (matchedFrom sampleEnv sampleConfig [flashA, flashB] 0
          [sampleTrack, earlyTrack, sampleTrack])).map (fun q => (q.2.1, q.1)) ∧
      (∀ q ∈ matchedFrom sampleEnv sampleConfig [flashA, flashB] 0
          [sampleTrack, earlyTrack, sampleTrack], ∃ (w : Nat) (f : Flash),
        q.2.flash = (w : Int) ∧ [flashA, flashB][w]? = some f ∧ q.2.time = f.Time)) ∧
    (produce sampleEnv sampleConfig (some [sampleTrack, earlyTrack, sampleTrack])
        (some [flashA, flashB]) zeroMembers).map Prod.snd
      = some { T0col := [{ time := 300, triggerType := 1, referenceId := 1, sequenceId := 0 },
                         { time := 300, triggerType := 1, referenceId := 1, sequenceId := 1 }]
               Trackassn := [(0, 0), (2, 1)] } :=
  ⟨output_records_of_matched_tracks sampleEnv sampleConfig [flashA, flashB]
    [sampleTrack, earlyTrack, sampleTrack] zeroMembers
    (by
      intro t ht
      simp only [List.mem_cons, List.mem_singleton, List.not_mem_nil, or_false] at ht
      rcases ht with ht | ht | ht <;> rw [ht] <;> simp [sampleTrack, earlyTrack])
    (by simp),
   sample_event_output zeroMembers⟩

/-- C7: the outcome of the flash loop of a track (an out-of-bounds read, no
match, or a match with its flash index, flash time and score) is the same
whatever the values of the members the body of the track loop is entered with,
hence whatever tracks were processed before it. -/
theorem match_independent_of_earlier_tracks (env : Env) (cfg : Config)
    (flashes : List Flash) (trk : Track) (m m1 : Members) :
    (trackScan env cfg flashes trk m1).map matchOf
      = (trackScan env cfg flashes trk m).map matchOf := by
  by_cases hhits : trk.hits = []
  · rw [trackScan_no_hits env cfg flashes trk m hhits,
      trackScan_no_hits env cfg flashes trk m1 hhits]
  · obtain ⟨first, last, hfirst, hlast⟩ := hits_ends trk.hits hhits
    obtain ⟨s, hs, _, hm⟩ := trackScan_match env cfg flashes trk m first last hfirst hlast
    obtain ⟨s1, hs1, _, hm1⟩ := trackScan_match env cfg flashes trk m1 first last hfirst hlast
    rw [hs, hs1, Option.map_some', Option.map_some', hm, hm1]

/-! ## The claims on `TrackProp` -/

theorem trackScan_times (env : Env) (cfg : Config) (flashes : List Flash) (trk : Track)
    (m : Members) (first last : ℚ) (hfirst : trk.hits.head? = some first)
    (hlast : trk.hits.getLast? = some last) :
    (trackScan env cfg flashes trk m).map (fun s => timesOf s.1)
      = some (last, first, first - last, last + (1 / 2) * (first - last)) := by
  obtain ⟨m0, hscan, _, _, _, htimes⟩ :=
    trackScan_of_hits env cfg flashes trk m first last hfirst hlast
  rw [hscan, Option.map_some', flashLoop_times]
  exact congrArg some htimes

/-- In exact arithmetic both branches of the per-axis centre of `TrackProp` give
the average of the two ends.  Under the rounding of `double` the computed
centre and the computed average can differ in the last place; this development
does not represent rounding. -/
theorem trackProp_centres (env : Env) (sx ex sy ey sz ez ts te : ℚ) :
    (TrackProp env sx ex sy ey sz ez ts te).TrackCentre_X = (sx + ex) / 2 ∧
    (TrackProp env sx ex sy ey sz ez ts te).TrackCentre_Y = (sy + ey) / 2 ∧
    (TrackProp env sx ex sy ey sz ez ts te).TrackCentre_Z = (sz + ez) / 2 := by
  have key : ∀ a b : ℚ,
      (if a < b then a + (1 / 2) * |b - a| else a - (1 / 2) * |b - a|) = (a + b) / 2 := by
    intro a b
    split_ifs with hab
    · rw [abs_of_pos (sub_pos.2 hab)]
      ring
    · rw [abs_of_nonpos (sub_nonpos.2 (not_lt.1 hab))]
      ring
  exact ⟨key sx ex, key sy ey, key sz ez⟩

/-- C8 (as the code runs): for the sample track, whose first hit has the peak
time 600 and whose last hit has the peak time 400, `trkTimeLengh` is 200, not
the last peak time minus the first one. -/
theorem time_length_is_not_last_minus_first :
    sampleTrack.hits.head? = some 600 ∧ sampleTrack.hits.getLast? = some 400 ∧
    (trackScan sampleEnv sampleConfig [] sampleTrack zeroMembers).map
      (fun s => s.1.trkTimeLengh) = some 200 ∧
    (200 : ℚ) ≠ 400 - 600 := by
  refine ⟨rfl, rfl, ?_, by norm_num⟩
  have h := trackScan_times sampleEnv sampleConfig [] sampleTrack zeroMembers 600 400 rfl rfl
  cases hs : trackScan sampleEnv sampleConfig [] sampleTrack zeroMembers with
  | none =>
    rw [hs] at h
    exact Option.noConfusion h
  | some s =>
    rw [hs, Option.map_some'] at h
    have hl : s.1.trkTimeLengh = 600 - 400 := congrArg (fun t => t.2.2.1) (Option.some.inj h)
    rw [Option.map_some', hl]
    norm_num

/-- C8 (amended): for a track with a hit, `trkTimeLengh` is the peak time of the
first hit of the hit list minus the peak time of its last hit. -/
theorem time_length_is_first_minus_last (env : Env) (cfg : Config) (flashes : List Flash)
    (trk : Track) (m : Members) (first last : ℚ) (hfirst : trk.hits.head? = some first)
    (hlast : trk.hits.getLast? = some last) :
    (trackScan env cfg flashes trk m).map (fun s => s.1.trkTimeLengh)
      = some (first - last) := by
  have h := trackScan_times env cfg flashes trk m first last hfirst hlast
  cases hs : trackScan env cfg flashes trk m with
  | none =>
    rw [hs] at h
    exact Option.noConfusion h
  | some s =>
    rw [hs, Option.map_some'] at h
    have hl : s.1.trkTimeLengh = first - last :=
      congrArg (fun t => t.2.2.1) (Option.some.inj h)
    rw [Option.map_some', hl]

/-- Witness of C8 (amended): the sample track, of peak times 600 and 400. -/
theorem time_length_is_first_minus_last_witness :
    (trackScan sampleEnv sampleConfig [flashA] sampleTrack zeroMembers).map
      (fun s => s.1.trkTimeLengh) = some (600 - 400) :=
  time_length_is_first_minus_last sampleEnv sampleConfig [flashA] sampleTrack zeroMembers
    600 400 rfl rfl

/-- C9: when the body of the track loop has set the temporal summary of a track
and `trkTimeLengh` is not negative, `trkTimeCentre` lies between `trkTimeStart`
and `trkTimeEnd`. -/
theorem time_centre_between_start_and_end (env : Env) (cfg : Config)
    (flashes : List Flash) (trk : Track) (m : Members)
    (tStart tEnd tLength tCentre : ℚ)
    (h : (trackScan env cfg flashes trk m).map
      (fun s => (s.1.trkTimeStart, s.1.trkTimeEnd, s.1.trkTimeLengh, s.1.trkTimeCentre))
      = some (tStart, tEnd, tLength, tCentre))
    (hlength : 0 ≤ tLength) :
    tStart ≤ tCentre ∧ tCentre ≤ tEnd := by
  cases hs : trackScan env cfg flashes trk m with
  | none =>
    rw [hs] at h
    exact Option.noConfusion h
  | some s =>
    obtain ⟨first, last, hfirst, hlast⟩ :=
      hits_ends trk.hits (trackScan_some_hits env cfg flashes trk m s hs)
    have ht := trackScan_times env cfg flashes trk m first last hfirst hlast
    rw [hs, Option.map_some'] at h ht
    have h1 := Option.some.inj h
    have h2 : (s.1.trkTimeStart, s.1.trkTimeEnd, s.1.trkTimeLengh, s.1.trkTimeCentre)
        = (last, first, first - last, last + (1 / 2) * (first - last)) := Option.some.inj ht
    rw [h1] at h2
    have e1 : tStart = last := congrArg (fun t => t.1) h2
    have e2 : tEnd = first := congrArg (fun t => t.2.1) h2
    have e3 : tLength = first - last := congrArg (fun t => t.2.2.1) h2
    have e4 : tCentre = last + (1 / 2) * (first - last) := congrArg (fun t => t.2.2.2) h2
    rw [e3] at hlength
    rw [e1, e2, e4]
    constructor <;> linarith

/-- Witness of C9: the sample track, of temporal start 400, end 600, length 200
and centre 500. -/
theorem time_centre_between_start_and_end_witness :
    (400 : ℚ) ≤ 500 ∧ (500 : ℚ) ≤ 600 :=
  time_centre_between_start_and_end sampleEnv sampleConfig [flashA] sampleTrack zeroMembers
    400 600 200 500
    (by
      have h : (trackScan sampleEnv sampleConfig [flashA] sampleTrack zeroMembers).map
          (fun s => (s.1.trkTimeStart, s.1.trkTimeEnd, s.1.trkTimeLengh, s.1.trkTimeCentre))
          = some (400, 600, 600 - 400, 400 + (1 / 2) * (600 - 400)) :=
        trackScan_times sampleEnv sampleConfig [flashA] sampleTrack zeroMembers 600 400 rfl rfl
      rw [h]
      norm_num)
    (by norm_num)

/-! ## The claims on `DistFromPoint` -/

theorem mem_pairDists (env : Env) (flash : Flash) (d : Dbl) (points : List Vec3) :
    d ∈ pairDists env flash points ↔
      ∃ (k : Nat) (prev new : Vec3), points[k]? = some prev ∧ points[k + 1]? = some new ∧
        d = DistFromPoint env new.y prev.y new.z prev.z flash.YCenter flash.ZCenter := by
  induction points with
  | nil => simp [pairDists]
  | cons p tl ih =>
    cases tl with
    | nil => simp [pairDists]
    | cons n rest =>
      rw [pairDists, List.mem_cons, ih]
      constructor
      · rintro (h | ⟨k, prev, new, hk, hk1, hd⟩)
        · exact ⟨0, p, n, rfl, by simp, h⟩
        · exact ⟨k + 1, prev, new, by simpa using hk, by simpa using hk1, hd⟩
      · rintro ⟨k, prev, new, hk, hk1, hd⟩
        cases k with
        | zero =>
          left
          have hp : p = prev := by simpa using hk
          have hn : n = new := by simpa using hk1
          rw [hp, hn]
          exact hd
        | succ k =>
          right
          exact ⟨k, prev, new, by simpa using hk, by simpa using hk1, hd⟩

theorem absDiv_ne_nan (a b : ℚ) (hb : b ≠ 0) : Dbl.absDiv a b ≠ Dbl.nan := by
  unfold Dbl.absDiv
  rw [if_neg hb]
  exact fun h => Dbl.noConfusion h

/-- Without a pair of consecutive trajectory points at which `hypot` returns 0,
no distance of a pair is a NaN. -/
theorem pairDists_ne_nan (env : Env) (flash : Flash) (points : List Vec3)
    (hlength : ∀ (k : Nat) (prev new : Vec3), points[k]? = some prev →
      points[k + 1]? = some new → env.hypot |prev.y - new.y| |prev.z - new.z| ≠ 0) :
    ∀ d ∈ pairDists env flash points, d ≠ Dbl.nan := by
  intro d hd
  obtain ⟨k, prev, new, hk, hk1, hval⟩ := (mem_pairDists env flash d points).1 hd
  rw [hval]
  unfold DistFromPoint
  exact absDiv_ne_nan _ _ (hlength k prev new hk hk1)

theorem pointLoop_min (env : Env) (flash : Flash) (rest : List Vec3) :
    ∀ (prev : Vec3) (Point : Nat) (s : Dbl × Dbl), 2 ≤ Point → s.2 ≠ Dbl.nan →
      (∀ d ∈ pairDists env flash (prev :: rest), d ≠ Dbl.nan) →
      Dbl.le (pointLoop env flash prev rest Point s).2 s.2 ∧
      (∀ d ∈ pairDists env flash (prev :: rest),
        Dbl.le (pointLoop env flash prev rest Point s).2 d) ∧
      ((pointLoop env flash prev rest Point s).2 = s.2 ∨
        (pointLoop env flash prev rest Point s).2 ∈ pairDists env flash (prev :: rest)) := by
  induction rest with
  | nil =>
    intro prev Point s _ hs _
    refine ⟨Dbl_le_refl _ hs, ?_, Or.inl rfl⟩
    intro d hd
    simp [pairDists] at hd
  | cons new rest ih =>
    intro prev Point s hP2 hs hnan
    have hP : Point ≠ 1 := by omega
    rw [pairDists] at hnan
    have hd0 : DistFromPoint env new.y prev.y new.z prev.z flash.YCenter flash.ZCenter
        ≠ Dbl.nan := hnan _ (List.mem_cons_self _ _)
    have htail : ∀ d ∈ pairDists env flash (new :: rest), d ≠ Dbl.nan :=
      fun d hd => hnan d (List.mem_cons_of_mem _ hd)
    rw [pointLoop, pairDists]
    simp only [if_neg hP]
    by_cases hlt : Dbl.lt
        (DistFromPoint env new.y prev.y new.z prev.z flash.YCenter flash.ZCenter) s.2
    · simp only [if_pos hlt]
      obtain ⟨h1, h2, h3⟩ := ih new (Point + 1)
        (DistFromPoint env new.y prev.y new.z prev.z flash.YCenter flash.ZCenter,
          DistFromPoint env new.y prev.y new.z prev.z flash.YCenter flash.ZCenter)
        (Nat.le_succ_of_le hP2) hd0 htail
      refine ⟨Dbl_le_trans h1 (Dbl_le_of_lt hlt), ?_, ?_⟩
      · intro d hd
        rcases List.mem_cons.1 hd with hd | hd
        · rw [hd]
          exact h1
        · exact h2 d hd
      · right
        rcases h3 with h3 | h3
        · rw [h3]
          exact List.mem_cons_self _ _
        · exact List.mem_cons_of_mem _ h3
    · simp only [if_neg hlt]
      obtain ⟨h1, h2, h3⟩ := ih new (Point + 1)
        (DistFromPoint env new.y prev.y new.z prev.z flash.YCenter flash.ZCenter, s.2)
        (Nat.le_succ_of_le hP2) hs htail
      refine ⟨h1, ?_, ?_⟩
      · intro d hd
        rcases List.mem_cons.1 hd with hd | hd
        · rw [hd]
          exact Dbl_le_trans h1 (Dbl_le_of_not_lt hd0 hs hlt)
        · exact h2 d hd
      · rcases h3 with h3 | h3
        · exact Or.inl h3
        · exact Or.inr (List.mem_cons_of_mem _ h3)

/-- With two trajectory points or more and no NaN among the distances of the
consecutive pairs, the loop over the trajectory points leaves in `minYZSep` the
least of these distances, whatever the value it is entered with. -/
theorem trajectoryLoop_min (env : Env) (flash : Flash) (points : List Vec3) (s : Dbl × Dbl)
    (hpoints : 2 ≤ points.length)
    (hnan : ∀ d ∈ pairDists env flash points, d ≠ Dbl.nan) :
    (trajectoryLoop env flash points s).2 ∈ pairDists env flash points ∧
    ∀ d ∈ pairDists env flash points, Dbl.le (trajectoryLoop env flash points s).2 d := by
  cases points with
  | nil => simp at hpoints
  | cons first tl =>
    cases tl with
    | nil => simp at hpoints
    | cons new rest =>
      rw [pairDists] at hnan
      have hd0 : DistFromPoint env new.y first.y new.z first.z flash.YCenter flash.ZCenter
          ≠ Dbl.nan := hnan _ (List.mem_cons_self _ _)
      have htail : ∀ d ∈ pairDists env flash (new :: rest), d ≠ Dbl.nan :=
        fun d hd => hnan d (List.mem_cons_of_mem _ hd)
      rw [trajectoryLoop, pointLoop, pairDists]
      simp only [if_true, ite_self]
      obtain ⟨h1, h2, h3⟩ := pointLoop_min env flash rest new (1 + 1)
        (DistFromPoint env new.y first.y new.z first.z flash.YCenter flash.ZCenter,
          DistFromPoint env new.y first.y new.z first.z flash.YCenter flash.ZCenter)
        (le_refl 2) hd0 htail
      refine ⟨?_, ?_⟩
      · rcases h3 with h3 | h3
        · rw [h3]
          exact List.mem_cons_self _ _
        · exact List.mem_cons_of_mem _ h3
      · intro d hd
        rcases List.mem_cons.1 hd with hd | hd
        · rw [hd]
          exact h1
        · exact h2 d hd

theorem flashBody_scored (env : Env) (cfg : Config) (trk : Track) (i : Nat) (f : Flash)
    (s : Members × Bool) (hadm : admissible cfg s.1.trkTimeCentre f) :
    (flashBody env cfg trk i f s).1.minYZSep = minYZSepOf env trk f ∧
    (flashBody env cfg trk i f s).1.DeltaPredX = DeltaPredXOf env cfg s.1.trkTimeCentre f ∧
    (flashBody env cfg trk i f s).1.FitParam = FitParamOf env cfg trk s.1.trkTimeCentre f := by
  have h' := (admissible_iff_not_skip cfg s.1.trkTimeCentre f).1 hadm
  unfold flashBody flashSelect flashScore flashPrep FitParamOf DeltaPredXOf minYZSepOf
  dsimp only
  rw [if_neg h']
  split_ifs <;> exact ⟨rfl, rfl, rfl⟩

/-- On a track with two trajectory points or more of which no two consecutive
points give `hypot` the value 0: after the body of the flash loop for a flash in
the time window, `minYZSep` is the distance `DistFromPoint` of the flash centre
to the line of one pair of consecutive trajectory points, it is at most the
distance of every such pair, and `FitParam` is `sqrt(DeltaPredX^2 + minYZSep^2)`;
these are the values `minYZSepOf` and `FitParamOf` the selection compares. -/
theorem minYZSep_is_least_pair_distance (env : Env) (cfg : Config) (trk : Track) (i : Nat)
    (f : Flash) (s : Members × Bool) (hpoints : 2 ≤ trk.points.length)
    (hlength : ∀ (k : Nat) (prev new : Vec3), trk.points[k]? = some prev →
      trk.points[k + 1]? = some new → env.hypot |prev.y - new.y| |prev.z - new.z| ≠ 0)
    (hadm : admissible cfg s.1.trkTimeCentre f) :
    (∃ (k : Nat) (prev new : Vec3),
      trk.points[k]? = some prev ∧ trk.points[k + 1]? = some new ∧
      (flashBody env cfg trk i f s).1.minYZSep
        = DistFromPoint env new.y prev.y new.z prev.z f.YCenter f.ZCenter) ∧
    (∀ (k : Nat) (prev new : Vec3),
      trk.points[k]? = some prev → trk.points[k + 1]? = some new →
      Dbl.le (flashBody env cfg trk i f s).1.minYZSep
        (DistFromPoint env new.y prev.y new.z prev.z f.YCenter f.ZCenter)) ∧
    (flashBody env cfg trk i f s).1.FitParam
      = Dbl.pow05 env.sqrt (Dbl.addFin ((flashBody env cfg trk i f s).1.DeltaPredX
          * (flashBody env cfg trk i f s).1.DeltaPredX)
        (Dbl.sq (flashBody env cfg trk i f s).1.minYZSep)) ∧
    (flashBody env cfg trk i f s).1.minYZSep = minYZSepOf env trk f ∧
    (flashBody env cfg trk i f s).1.FitParam = FitParamOf env cfg trk s.1.trkTimeCentre f := by
  obtain ⟨hmin, hdelta, hfit⟩ := flashBody_scored env cfg trk i f s hadm
  obtain ⟨hmem, hle⟩ := trajectoryLoop_min env f trk.points (Dbl.fin 0, Dbl.fin 0) hpoints
    (pairDists_ne_nan env f trk.points hlength)
  rw [hmin, hdelta, hfit]
  refine ⟨?_, ?_, rfl, rfl, rfl⟩
  · exact (mem_pairDists env f _ trk.points).1 hmem
  · intro k prev new hk hk1
    exact hle _ ((mem_pairDists env f _ trk.points).2 ⟨k, prev, new, hk, hk1, rfl⟩)

/-- An instance of the minimum over the trajectory points: the track of three
trajectory points and the flash at the distances 3 and 2 of its two lines;
`minYZSep` is 2. -/
theorem bent_minYZSep : minYZSepOf sampleEnv bentTrack flashC = Dbl.fin 2 := by
  norm_num [minYZSepOf, trajectoryLoop, pointLoop, DistFromPoint, Dbl.absDiv, Dbl.lt,
    sampleEnv, bentTrack, flashC, ratSqrt_100]

theorem sample_adm_C : admissible sampleConfig 500 flashC := by
  norm_num [admissible, sampleConfig, flashC]

theorem bentTrack_lengths (k : Nat) (prev new : Vec3)
    (hk : bentTrack.points[k]? = some prev) (hk1 : bentTrack.points[k + 1]? = some new) :
    sampleEnv.hypot |prev.y - new.y| |prev.z - new.z| ≠ 0 := by
  rcases k with _ | _ | k
  · have hp : prev = ⟨0, 0, 0⟩ := by simpa [bentTrack] using hk.symm
    have hn : new = ⟨0, 0, 10⟩ := by simpa [bentTrack] using hk1.symm
    rw [hp, hn]
    norm_num [sampleEnv, ratSqrt_100]
  · have hp : prev = ⟨0, 0, 10⟩ := by simpa [bentTrack] using hk.symm
    have hn : new = ⟨0, 10, 10⟩ := by simpa [bentTrack] using hk1.symm
    rw [hp, hn]
    norm_num [sampleEnv, ratSqrt_100]
  · simp [bentTrack] at hk1

/-- An instance of the minimum over the trajectory points, on `bentTrack` and
`flashC`. -/
theorem bent_least_pair_distance :
    (∃ (k : Nat) (prev new : Vec3),
      bentTrack.points[k]? = some prev ∧ bentTrack.points[k + 1]? = some new ∧
      (flashBody sampleEnv sampleConfig bentTrack 0 flashC (sampleMembers, false)).1.minYZSep
        = DistFromPoint sampleEnv new.y prev.y new.z prev.z flashC.YCenter flashC.ZCenter) ∧
    (∀ (k : Nat) (prev new : Vec3),
      bentTrack.points[k]? = some prev → bentTrack.points[k + 1]? = some new →
      Dbl.le
        (flashBody sampleEnv sampleConfig bentTrack 0 flashC (sampleMembers, false)).1.minYZSep
        (DistFromPoint sampleEnv new.y prev.y new.z prev.z flashC.YCenter flashC.ZCenter)) ∧
    (flashBody sampleEnv sampleConfig bentTrack 0 flashC (sampleMembers, false)).1.minYZSep
      = Dbl.fin 2 := by
  obtain ⟨h1, h2, _, h4, _⟩ := minYZSep_is_least_pair_distance sampleEnv sampleConfig
    bentTrack 0 flashC (sampleMembers, false) (by decide) bentTrack_lengths sample_adm_C
  exact ⟨h1, h2, h4.trans bent_minYZSep⟩

/-! ## The division by a length of zero -/

theorem nanTrack_trackMatch (flashes : List Flash) (m : Members) :
    trackMatch sampleEnv sampleConfig flashes nanTrack m
      = some (500, selectFlash sampleEnv sampleConfig nanTrack 500 flashes) := by
  rw [trackMatch_of_hits sampleEnv sampleConfig flashes nanTrack m 600 400 rfl rfl,
    sample_centre]

theorem skipTrack_trackMatch (flashes : List Flash) (m : Members) :
    trackMatch sampleEnv sampleConfig flashes skipTrack m
      = some (500, selectFlash sampleEnv sampleConfig skipTrack 500 flashes) := by
  rw [trackMatch_of_hits sampleEnv sampleConfig flashes skipTrack m 600 400 rfl rfl,
    sample_centre]

theorem nanTrack_pairDists :
    pairDists sampleEnv flashA nanTrack.points = [Dbl.nan, Dbl.fin 3] := by
  norm_num [pairDists, DistFromPoint, Dbl.absDiv, sampleEnv, nanTrack, flashA, ratSqrt_0,
    ratSqrt_100]

theorem skipTrack_pairDists :
    pairDists sampleEnv flashA skipTrack.points = [Dbl.fin 3, Dbl.nan] := by
  norm_num [pairDists, DistFromPoint, Dbl.absDiv, sampleEnv, skipTrack, flashA, ratSqrt_0,
    ratSqrt_100]

theorem nanTrack_minYZSep (f : Flash) : minYZSepOf sampleEnv nanTrack f = Dbl.nan := by
  norm_num [minYZSepOf, trajectoryLoop, pointLoop, DistFromPoint, Dbl.absDiv, Dbl.lt,
    sampleEnv, nanTrack, ratSqrt_0, ratSqrt_100]

theorem nanTrack_fit (f : Flash) :
    FitParamOf sampleEnv sampleConfig nanTrack 500 f = Dbl.nan := by
  unfold FitParamOf
  rw [nanTrack_minYZSep]
  rfl

theorem skipTrack_minYZSep_A : minYZSepOf sampleEnv skipTrack flashA = Dbl.fin 3 := by
  norm_num [minYZSepOf, trajectoryLoop, pointLoop, DistFromPoint, Dbl.absDiv, Dbl.lt,
    sampleEnv, skipTrack, flashA, ratSqrt_0, ratSqrt_100]

theorem skipTrack_fit_A :
    FitParamOf sampleEnv sampleConfig skipTrack 500 flashA = Dbl.fin 5 := by
  unfold FitParamOf
  rw [skipTrack_minYZSep_A]
  norm_num [DeltaPredXOf, Dbl.sq, Dbl.addFin, Dbl.pow05, sampleEnv, sampleConfig, flashA,
    ratSqrt_25]

theorem skipTrack_fit_B :
    FitParamOf sampleEnv sampleConfig skipTrack 500 flashB = Dbl.fin 3 := by
  norm_num [FitParamOf, DeltaPredXOf, minYZSepOf, trajectoryLoop, pointLoop, DistFromPoint,
    Dbl.absDiv, Dbl.lt, Dbl.sq, Dbl.addFin, Dbl.pow05,
    sampleEnv, sampleConfig, skipTrack, flashB, ratSqrt_0, ratSqrt_100, ratSqrt_9]

theorem nanTrack_select :
    selectFlash sampleEnv sampleConfig nanTrack 500 [flashA, flashB]
      = some { flash := 0, time := 250, score := Dbl.nan } := by
  have s0 : selStep sampleEnv sampleConfig nanTrack 500 0 flashA
      { valid := false, best := Dbl.fin 0, flash := 0, time := 0 }
      = { valid := true, best := Dbl.nan, flash := 0, time := 250 } := by
    unfold selStep
    rw [if_pos sample_adm_A, nanTrack_fit, if_pos (Or.inr (by decide))]
    rfl
  have s1 : selStep sampleEnv sampleConfig nanTrack 500 (0 + 1) flashB
      { valid := true, best := Dbl.nan, flash := 0, time := 250 }
      = { valid := true, best := Dbl.nan, flash := 0, time := 250 } := by
    unfold selStep
    rw [if_pos sample_adm_B, nanTrack_fit, if_neg (by
      rw [not_or]
      exact ⟨Dbl_not_lt_nan _, by decide⟩)]
  unfold selectFlash
  rw [selLoop, selLoop, selLoop, s0, s1]
  rfl

theorem skipTrack_select :
    selectFlash sampleEnv sampleConfig skipTrack 500 [flashA, flashB]
      = some { flash := 1, time := 300, score := Dbl.fin 3 } := by
  have s0 : selStep sampleEnv sampleConfig skipTrack 500 0 flashA
      { valid := false, best := Dbl.fin 0, flash := 0, time := 0 }
      = { valid := true, best := Dbl.fin 5, flash := 0, time := 250 } := by
    unfold selStep
    rw [if_pos sample_adm_A, skipTrack_fit_A, if_pos (Or.inr (by decide))]
    rfl
  have s1 : selStep sampleEnv sampleConfig skipTrack 500 (0 + 1) flashB
      { valid := true, best := Dbl.fin 5, flash := 0, time := 250 }
      = { valid := true, best := Dbl.fin 3, flash := 1, time := 300 } := by
    unfold selStep
    rw [if_pos sample_adm_B, skipTrack_fit_B, if_pos (Or.inl (by norm_num [Dbl.lt]))]
    rfl
  unfold selectFlash
  rw [selLoop, selLoop, selLoop, s0, s1]
  rfl

/-- C2 (as the code runs): on `nanTrack`, whose first two trajectory points have
the same `(Y, Z)`, `DistFromPoint` divides 0 by 0 and the score of every flash
is a NaN; with the two admissible flashes `flashA` and `flashB` the flash loop
retains flash 0 with the score NaN, which is not less than or equal to the
score of flash 1.  On `skipTrack`, which has the same lines in the other order,
the NaN is passed over, the scores are 5 and 3 and flash 1 is retained. -/
theorem nan_score_is_retained_as_best :
    admissible sampleConfig 500 flashA ∧ admissible sampleConfig 500 flashB ∧
    FitParamOf sampleEnv sampleConfig nanTrack 500 flashA = Dbl.nan ∧
    FitParamOf sampleEnv sampleConfig nanTrack 500 flashB = Dbl.nan ∧
    trackMatch sampleEnv sampleConfig [flashA, flashB] nanTrack zeroMembers
      = some (500, some { flash := 0, time := 250, score := Dbl.nan }) ∧
    ¬ Dbl.le Dbl.nan (FitParamOf sampleEnv sampleConfig nanTrack 500 flashB) ∧
    trackMatch sampleEnv sampleConfig [flashA, flashB] skipTrack zeroMembers
      = some (500, some { flash := 1, time := 300, score := Dbl.fin 3 }) := by
  refine ⟨sample_adm_A, sample_adm_B, nanTrack_fit flashA, nanTrack_fit flashB, ?_,
    Dbl_not_nan_le _, ?_⟩
  · rw [nanTrack_trackMatch, nanTrack_select]
  · rw [skipTrack_trackMatch, skipTrack_select]

/-- C12 (as the code runs): on `nanTrack` the distance of the first pair of
trajectory points is a NaN and the distance of the second pair is 3; after the
body of the flash loop for the admissible flash `flashA`, `minYZSep` and
`FitParam` are NaN, and NaN is not less than or equal to 3.  On `skipTrack`,
where the same two distances come in the other order, `minYZSep` is 3. -/
theorem nan_of_first_pair_is_retained_as_minimum :
    2 ≤ nanTrack.points.length ∧ admissible sampleConfig sampleMembers.trkTimeCentre flashA ∧
    pairDists sampleEnv flashA nanTrack.points = [Dbl.nan, Dbl.fin 3] ∧
    (flashBody sampleEnv sampleConfig nanTrack 0 flashA (sampleMembers, false)).1.minYZSep
      = Dbl.nan ∧
    (flashBody sampleEnv sampleConfig nanTrack 0 flashA (sampleMembers, false)).1.FitParam
      = Dbl.nan ∧
    ¬ Dbl.le Dbl.nan (Dbl.fin 3) ∧
    pairDists sampleEnv flashA skipTrack.points = [Dbl.fin 3, Dbl.nan] ∧
    (flashBody sampleEnv sampleConfig skipTrack 0 flashA (sampleMembers, false)).1.minYZSep
      = Dbl.fin 3 := by
  obtain ⟨hmin, _, hfit⟩ :=
    flashBody_scored sampleEnv sampleConfig nanTrack 0 flashA (sampleMembers, false) sample_adm_A
  obtain ⟨hmin2, _, _⟩ :=
    flashBody_scored sampleEnv sampleConfig skipTrack 0 flashA (sampleMembers, false)
      sample_adm_A
  refine ⟨by decide, sample_adm_A, nanTrack_pairDists, ?_, ?_, Dbl_not_nan_le _,
    skipTrack_pairDists, ?_⟩
  · rw [hmin, nanTrack_minYZSep]
  · rw [hfit]
    exact nanTrack_fit flashA
  · rw [hmin2, skipTrack_minYZSep_A]

/-! ## The match exists exactly when flash 0 is admissible -/

theorem toInt_ne_zero (i : Nat) (hpos : 0 < i) (hlt : i < 2 ^ 32) : toInt i ≠ 0 := by
  have hmod : i % 2 ^ 32 = i := Nat.mod_eq_of_lt hlt
  unfold toInt
  rw [hmod]
  split_ifs <;> omega

theorem pow05_not_lt_zero (sqrt : ℚ → ℚ) (hsqrt : ∀ x, 0 ≤ sqrt x) (d : Dbl) :
    ¬ Dbl.lt (Dbl.pow05 sqrt d) (Dbl.fin 0) := by
  cases d with
  | fin x => exact not_lt.2 (hsqrt x)
  | inf => exact not_false
  | nan => exact not_false

theorem FitParamOf_not_lt_zero (env : Env) (cfg : Config) (trk : Track) (centre : ℚ)
    (f : Flash) (hsqrt : ∀ x, 0 ≤ env.sqrt x) :
    ¬ Dbl.lt (FitParamOf env cfg trk centre f) (Dbl.fin 0) :=
  pow05_not_lt_zero env.sqrt hsqrt _

theorem selStep_unset (env : Env) (cfg : Config) (trk : Track) (centre : ℚ) (i : Nat)
    (f : Flash) (σ : Sel) (hsqrt : ∀ x, 0 ≤ env.sqrt x) (hbest : σ.best = Dbl.fin 0)
    (hpos : 0 < i) (hlt : i < 2 ^ 32) :
    selStep env cfg trk centre i f σ = σ := by
  have hno : ¬ (Dbl.lt (FitParamOf env cfg trk centre f) σ.best ∨ toInt i = 0) := by
    rw [hbest, not_or]
    exact ⟨FitParamOf_not_lt_zero env cfg trk centre f hsqrt, toInt_ne_zero i hpos hlt⟩
  unfold selStep
  rw [if_neg hno]
  split_ifs <;> rfl

theorem selLoop_unset (env : Env) (cfg : Config) (trk : Track) (centre : ℚ)
    (hsqrt : ∀ x, 0 ≤ env.sqrt x) (fs : List Flash) :
    ∀ (i : Nat) (σ : Sel), σ.best = Dbl.fin 0 → 0 < i → i + fs.length ≤ 2 ^ 32 →
      selLoop env cfg trk centre fs i σ = σ := by
  induction fs with
  | nil => intro i σ _ _ _; rfl
  | cons f fs ih =>
    intro i σ hbest hpos hlen
    rw [List.length_cons] at hlen
    rw [selLoop, selStep_unset env cfg trk centre i f σ hsqrt hbest hpos (by omega)]
    exact ih (i + 1) σ hbest (Nat.succ_pos i) (by omega)

theorem selStep_valid (env : Env) (cfg : Config) (trk : Track) (centre : ℚ) (i : Nat)
    (f : Flash) (σ : Sel) (hv : σ.valid = true) :
    (selStep env cfg trk centre i f σ).valid = true := by
  unfold selStep
  split_ifs
  · rfl
  · exact hv
  · exact hv

theorem selLoop_valid (env : Env) (cfg : Config) (trk : Track) (centre : ℚ)
    (fs : List Flash) :
    ∀ (i : Nat) (σ : Sel), σ.valid = true →
      (selLoop env cfg trk centre fs i σ).valid = true := by
  induction fs with
  | nil => intro i σ hv; exact hv
  | cons f fs ih =>
    intro i σ hv
    rw [selLoop]
    exact ih (i + 1) _ (selStep_valid env cfg trk centre i f σ hv)

theorem matchSel_isSome (σ : Sel) : (matchSel σ).isSome = σ.valid := by
  unfold matchSel
  cases σ.valid <;> rfl

theorem selectFlash_isSome_iff (env : Env) (cfg : Config) (trk : Track) (centre : ℚ)
    (flashes : List Flash) (hsqrt : ∀ x, 0 ≤ env.sqrt x) (hlen : flashes.length ≤ 2 ^ 32) :
    (selectFlash env cfg trk centre flashes).isSome = true ↔
      ∃ f0, flashes[0]? = some f0 ∧ admissible cfg centre f0 := by
  unfold selectFlash
  rw [matchSel_isSome]
  cases flashes with
  | nil =>
    constructor
    · intro h
      exact Bool.noConfusion h
    · rintro ⟨f0, h0, _⟩
      simp at h0
  | cons f fs =>
    rw [List.length_cons] at hlen
    rw [selLoop]
    by_cases hadm : admissible cfg centre f
    · constructor
      · intro _
        exact ⟨f, by simp, hadm⟩
      · intro _
        apply selLoop_valid
        unfold selStep
        rw [if_pos hadm, if_pos (Or.inr (by decide))]
    · have hstep : selStep env cfg trk centre 0 f
          { valid := false, best := Dbl.fin 0, flash := 0, time := 0 }
          = { valid := false, best := Dbl.fin 0, flash := 0, time := 0 } := by
        unfold selStep
        rw [if_neg hadm]
      rw [hstep, selLoop_unset env cfg trk centre hsqrt fs (0 + 1) _ rfl (Nat.succ_pos 0)
        (by omega)]
      constructor
      · intro h
        exact Bool.noConfusion h
      · rintro ⟨f0, h0, h1⟩
        have hf : f = f0 := by simpa using h0
        rw [← hf] at h1
        exact absurd h1 hadm

/-- C13: for a track with a hit and a flash list of at most `2^32` flashes, with
`pow(., 0.5)` never negative, the track obtains a match if and only if the flash
at index 0 is admissible; as long as `ValidTrack` is unset and `BestFitParam` is
0, the body of the flash loop at an index other than 0 leaves `ValidTrack`
unset. -/
theorem match_iff_first_flash_admissible (env : Env) (cfg : Config) (flashes : List Flash)
    (trk : Track) (m : Members) (first last : ℚ)
    (hfirst : trk.hits.head? = some first) (hlast : trk.hits.getLast? = some last)
    (hsqrt : ∀ x, 0 ≤ env.sqrt x) (hlen : flashes.length ≤ 2 ^ 32) :
    (∃ r : Option MatchResult,
      trackMatch env cfg flashes trk m = some (centreOf first last, r) ∧
      (r.isSome = true ↔
        ∃ f0, flashes[0]? = some f0 ∧ admissible cfg (centreOf first last) f0)) ∧
    (∀ (i : Nat) (f : Flash) (s : Members × Bool), s.2 = false → s.1.BestFitParam = Dbl.fin 0 →
      0 < i → i < 2 ^ 32 → (flashBody env cfg trk i f s).2 = false) := by
  refine ⟨⟨_, trackMatch_of_hits env cfg flashes trk m first last hfirst hlast,
    selectFlash_isSome_iff env cfg trk (centreOf first last) flashes hsqrt hlen⟩, ?_⟩
  intro i f s hv hbest hpos hlt
  have hsel := selOf_flashBody env cfg trk i f s
  rw [selStep_unset env cfg trk s.1.trkTimeCentre i f (selOf s) hsqrt hbest hpos hlt] at hsel
  have hvalid : (selOf (flashBody env cfg trk i f s)).valid = (selOf s).valid :=
    congrArg Sel.valid hsel
  exact hvalid.trans hv

/-- Witness of C13: the sample track with an inadmissible flash at index 0 and
an admissible flash at index 1. -/
theorem match_iff_first_flash_admissible_witness :
    (∃ r : Option MatchResult,
      trackMatch sampleEnv sampleConfig [flashLate, flashA] sampleTrack zeroMembers
        = some (centreOf 600 400, r) ∧
      (r.isSome = true ↔
        ∃ f0, [flashLate, flashA][0]? = some f0 ∧
          admissible sampleConfig (centreOf 600 400) f0)) ∧
    (∀ (i : Nat) (f : Flash) (s : Members × Bool), s.2 = false → s.1.BestFitParam = Dbl.fin 0 →
      0 < i → i < 2 ^ 32 → (flashBody sampleEnv sampleConfig sampleTrack i f s).2 = false) :=
  match_iff_first_flash_admissible sampleEnv sampleConfig [flashLate, flashA] sampleTrack
    zeroMembers 600 400 rfl rfl (fun x => ratSqrt_nonneg x) (by simp)

end PhotonCounterT0Matching
